import Mathlib

/-!
# Verification of the session-signals pipeline

Shallow embedding of the session-signals repository (harness adapters,
friction detectors, trend classification, and the action engine) with
theorems checking the natural-language specification against the code.

Conventions of the embedding:
* JavaScript numbers used as integer counters are modelled as `Nat`.
* Millisecond epoch timestamps (ISO-8601 strings in the source, which are
  order-isomorphic to their numeric epoch value) are modelled as `Nat`.
* The float literals `1.2` / `0.8` / similarity thresholds are modelled as
  exact rationals; at the small integer counts the pipeline works with,
  double-precision evaluation agrees with the exact-rational reading.
* Fallible steps are modelled with `Option`; JS string truthiness
  (`if (s)`) is modelled as `s ≠ ""`.
-/

set_option maxRecDepth 8000

namespace SessionSignals

/-! ## String similarity (src/lib/heuristics.ts: levenshteinDistance / levenshteinRatio)

The source computes the edit-distance DP with a two-row optimization:
`curr[j] = min(prev[j] + 1, curr[j-1] + 1, prev[j-1] + cost)`.
We embed the rows as `List Nat`, consuming `b` and the previous row in
lockstep; `levRowAux` is the inner `for j` loop, `levRows` the outer
`for i` loop. -/

/-- Inner DP loop: given the character `c = a[i-1]`, the remaining characters
of `b`, the remaining previous row (starting at `prev[j-1]`) and the value
`curr[j-1]`, produce `[curr[j], curr[j+1], ...]`. -/
def levRowAux (c : Char) : List Char → List Nat → Nat → List Nat
  | [], _, _ => []
  | _ :: _, [], _ => []
  | _ :: _, [_], _ => []
  | bj :: bs, pjm1 :: pj :: prest, cjm1 =>
    let cost : Nat := if c = bj then 0 else 1
    let cj := min (pj + 1) (min (cjm1 + 1) (pjm1 + cost))
    cj :: levRowAux c bs (pj :: prest) cj

/-- Outer DP loop over the characters of `a`: `prev` is the row for the
first `i` characters of `a`; returns the final row. -/
def levRows (b : List Char) : List Char → List Nat → Nat → List Nat
  | [], prev, _ => prev
  | ai :: arest, prev, i =>
    let curr := (i + 1) :: levRowAux ai b prev (i + 1)
    levRows b arest curr (i + 1)

/-- Levenshtein distance between two strings (char lists), mirroring the
single-row-optimized DP of the source. -/
def levenshteinDistance (a b : List Char) : Nat :=
  if a.length = 0 then b.length
  else if b.length = 0 then a.length
  else (levRows b a (List.range (b.length + 1)) 0).getLastD 0

/-- Similarity ratio (0–1) between two strings; `1` means identical.
The source computes `1 - distance / maxLen` (and `1` when both strings are
empty); we write the same rational as a single `mkRat` so the kernel can
evaluate it — `levenshteinRatio_eq_one_sub_div` below proves the two forms
equal. -/
def levenshteinRatio (a b : String) : ℚ :=
  let maxLen := max a.length b.length
  if maxLen = 0 then 1
  else mkRat ((maxLen : Int) - (levenshteinDistance a.data b.data : Int)) maxLen

theorem levenshteinRatio_eq_one_sub_div (a b : String) (h : max a.length b.length ≠ 0) :
    levenshteinRatio a b =
      1 - (levenshteinDistance a.data b.data : ℚ) / (max a.length b.length : ℚ) := by
  unfold levenshteinRatio
  rw [if_neg h, Rat.mkRat_eq_div]
  push_cast
  rw [sub_div, div_self (by exact_mod_cast h)]

/-! ### DP lemmas for the Levenshtein embedding -/

theorem levRowAux_length (c : Char) :
    ∀ (bs : List Char) (prev : List Nat) (cjm1 : Nat),
      prev.length = bs.length + 1 →
      (levRowAux c bs prev cjm1).length = bs.length
  | [], _, _, _ => rfl
  | _ :: _, [], _, h => by simp at h
  | _ :: bs, [_], _, h => by simp at h
  | bj :: bs, pjm1 :: pj :: prest, cjm1, h => by
    simp only [levRowAux, List.length_cons]
    rw [levRowAux_length c bs (pj :: prest)]
    simpa using h

/-- Every cell the inner loop produces respects the classical bound
`D(i,j) ≤ max i j`: if `prev` holds row `i` starting at column `j` and
`cjm1` is the already-computed cell of row `i+1` at column `j`, then the
produced cells (columns `j+1, j+2, …` of row `i+1`) are bounded.
Stated with `getD` so that out-of-range indices are trivially `0`. -/
theorem levRowAux_bound (c : Char) :
    ∀ (bs : List Char) (prev : List Nat) (cjm1 i j : Nat),
      (∀ k, prev.getD k 0 ≤ max i (j + k)) →
      cjm1 ≤ max (i + 1) j →
      ∀ k, (levRowAux c bs prev cjm1).getD k 0 ≤ max (i + 1) (j + 1 + k)
  | [], _, _, _, _, _, _, k => by simp [levRowAux]
  | _ :: _, [], _, _, _, _, _, k => by simp [levRowAux]
  | _ :: _, [_], _, _, _, _, _, k => by simp [levRowAux]
  | bj :: bs, pjm1 :: pj :: prest, cjm1, i, j, hprev, hc, k => by
    simp only [levRowAux]
    have hcost : (if c = bj then 0 else 1) ≤ 1 := by split <;> omega
    have hpjm1 : pjm1 ≤ max i j := by
      have h := hprev 0
      simp only [List.getD_cons_zero] at h
      omega
    have hcj : min (pj + 1) (min (cjm1 + 1) (pjm1 + if c = bj then 0 else 1)) ≤
        max (i + 1) (j + 1) := by omega
    rcases k with _ | k
    · simp only [List.getD_cons_zero]
      omega
    · simp only [List.getD_cons_succ]
      have ih := levRowAux_bound c bs (pj :: prest)
        (min (pj + 1) (min (cjm1 + 1) (pjm1 + if c = bj then 0 else 1))) i (j + 1)
        (fun k => by
          have h := hprev (k + 1)
          simp only [List.getD_cons_succ] at h
          omega) hcj k
      omega

theorem levRows_length (b : List Char) :
    ∀ (arest : List Char) (prev : List Nat) (i : Nat),
      prev.length = b.length + 1 →
      (levRows b arest prev i).length = b.length + 1
  | [], _, _, h => h
  | ai :: arest, prev, i, h => by
    simp only [levRows]
    exact levRows_length b arest _ (i + 1)
      (by simp [levRowAux_length ai b prev _ h])

theorem levRows_bound (b : List Char) :
    ∀ (arest : List Char) (prev : List Nat) (i : Nat),
      (∀ k, prev.getD k 0 ≤ max i k) →
      ∀ k, (levRows b arest prev i).getD k 0 ≤ max (i + arest.length) k
  | [], prev, i, hprev, k => by
    simp only [levRows, List.length_nil]
    have := hprev k
    omega
  | ai :: arest, prev, i, hprev, k => by
    simp only [levRows, List.length_cons]
    have hcurr : ∀ k, ((i + 1) :: levRowAux ai b prev (i + 1)).getD k 0 ≤ max (i + 1) k := by
      intro k
      rcases k with _ | k
      · simp only [List.getD_cons_zero]
        omega
      · simp only [List.getD_cons_succ]
        have := levRowAux_bound ai b prev (i + 1) i 0
          (fun k => by have := hprev k; omega) (by omega) k
        omega
    have ih := levRows_bound b arest _ (i + 1) hcurr k
    omega

/-- Diagonal cells stay `0` when the compared strings agree: if `prev`
has a `0` at offset `k` and the `k`-th remaining character of `b` is `c`,
the produced row has a `0` at offset `k` as well. -/
theorem levRowAux_diag_zero (c : Char) :
    ∀ (bs : List Char) (prev : List Nat) (cjm1 k : Nat),
      prev.getD k 0 = 0 → bs.getD k c = c →
      (levRowAux c bs prev cjm1).getD k 0 = 0
  | [], _, _, k, _, _ => by simp [levRowAux]
  | _ :: _, [], _, k, _, _ => by simp [levRowAux]
  | _ :: _, [_], _, k, hp, hb => by simp [levRowAux]
  | bj :: bs, pjm1 :: pj :: prest, cjm1, 0, hp, hb => by
    simp only [List.getD_cons_zero] at hp hb
    simp [levRowAux, hp, hb]
  | bj :: bs, pjm1 :: pj :: prest, cjm1, k + 1, hp, hb => by
    simp only [List.getD_cons_succ] at hp hb
    simp only [levRowAux, List.getD_cons_succ]
    exact levRowAux_diag_zero c bs (pj :: prest) _ k hp hb

theorem levRows_diag_zero (b : List Char) :
    ∀ (arest : List Char) (prev : List Nat) (i : Nat),
      arest = b.drop i → i ≤ b.length → prev.getD i 0 = 0 →
      (levRows b arest prev i).getD b.length 0 = 0
  | [], prev, i, hdrop, hle, hp => by
    have hge : b.length ≤ i := by
      rw [← List.drop_eq_nil_iff (l := b) (k := i)]
      exact hdrop.symm
    have heq : i = b.length := le_antisymm hle hge
    simpa [levRows, ← heq] using hp
  | ai :: arest, prev, i, hdrop, hle, hp => by
    have hilt : i < b.length := by
      by_contra h
      have hnil : b.drop i = [] := List.drop_eq_nil_iff.mpr (by omega)
      rw [hnil] at hdrop
      cases hdrop
    have hcons := List.drop_eq_getElem_cons (l := b) (n := i) hilt
    rw [hcons] at hdrop
    injection hdrop with hai harest
    simp only [levRows]
    refine levRows_diag_zero b arest _ (i + 1) harest (by omega) ?_
    simp only [List.getD_cons_succ]
    refine levRowAux_diag_zero ai b prev _ i hp ?_
    rw [List.getD_eq_getElem b ai hilt, ← hai]
theorem getLastD_eq_getD (l : List Nat) (n : Nat) (h : l.length = n + 1) :
    l.getLastD 0 = l.getD n 0 := by
  rw [List.getLastD_eq_getLast?, List.getLast?_eq_getElem? l, List.getD_eq_getElem?_getD l n 0, h]
  simp

/-- The Levenshtein distance never exceeds the length of the longer input. -/
theorem levenshteinDistance_le_max (a b : List Char) :
    levenshteinDistance a b ≤ max a.length b.length := by
  unfold levenshteinDistance
  split
  · omega
  split
  · omega
  have hlen0 : (List.range (b.length + 1)).length = b.length + 1 := by
    simp
  have hlen : (levRows b a (List.range (b.length + 1)) 0).length = b.length + 1 :=
    levRows_length b a _ 0 hlen0
  have hrange : ∀ k, (List.range (b.length + 1)).getD k 0 ≤ max 0 k := by
    intro k
    rcases lt_or_ge k (b.length + 1) with h | h
    · have hk : k < (List.range (b.length + 1)).length := by omega
      have : (List.range (b.length + 1)).getD k 0 = k := by
        rw [List.getD_eq_getElem _ _ hk]
        simp
      omega
    · rw [List.getD_eq_default _ 0 (by omega)]
      omega
  have hbound := levRows_bound b a (List.range (b.length + 1)) 0 hrange b.length
  rw [getLastD_eq_getD _ b.length hlen]
  omega

/-- The DP returns distance `0` on two equal strings. -/
theorem levenshteinDistance_self (a : List Char) : levenshteinDistance a a = 0 := by
  unfold levenshteinDistance
  split
  · omega
  have hlen0 : (List.range (a.length + 1)).length = a.length + 1 := by
    simp
  have hlen : (levRows a a (List.range (a.length + 1)) 0).length = a.length + 1 :=
    levRows_length a a _ 0 hlen0
  have hz : (List.range (a.length + 1)).getD 0 0 = 0 := by
    rw [List.getD_eq_getElem _ _ (by simp)]
    simp
  have hdz := levRows_diag_zero a a (List.range (a.length + 1)) 0 (by simp) (by omega) hz
  rw [getLastD_eq_getD _ a.length hlen]
  exact hdz

example : levenshteinDistance "fix the bug in login".data "fix the bug in login page".data = 5 := by decide
/-- C10: for all strings `a` and `b`, the similarity ratio used by the
rephrase-storm and retry-loop detectors is between 0 and 1 inclusive (the
underlying Levenshtein distance never exceeds the length of the longer
string), and it equals exactly 1 when `a` and `b` are equal — so configured
similarity thresholds in `[0,1]` are always comparable against it. -/
theorem similarity_ratio_in_unit_interval (a b : String) :
    levenshteinDistance a.data b.data ≤ max a.length b.length ∧
    0 ≤ levenshteinRatio a b ∧ levenshteinRatio a b ≤ 1 ∧
    (a = b → levenshteinRatio a b = 1) := by
  have hd := levenshteinDistance_le_max a.data b.data
  have hd' : levenshteinDistance a.data b.data ≤ max a.length b.length := hd
  refine ⟨hd', ?_, ?_, ?_⟩
  · by_cases h : max a.length b.length = 0
    · unfold levenshteinRatio
      rw [if_pos h]
      norm_num
    · rw [levenshteinRatio_eq_one_sub_div a b h]
      have hm : (0 : ℚ) < (max a.length b.length : ℚ) := by
        exact_mod_cast Nat.pos_of_ne_zero h
      have : (levenshteinDistance a.data b.data : ℚ) / (max a.length b.length : ℚ) ≤ 1 := by
        rw [div_le_one hm]
        exact_mod_cast hd'
      linarith
  · by_cases h : max a.length b.length = 0
    · unfold levenshteinRatio
      rw [if_pos h]
    · rw [levenshteinRatio_eq_one_sub_div a b h]
      have hm : (0 : ℚ) < (max a.length b.length : ℚ) := by
        exact_mod_cast Nat.pos_of_ne_zero h
      have : 0 ≤ (levenshteinDistance a.data b.data : ℚ) / (max a.length b.length : ℚ) :=
        div_nonneg (by positivity) (le_of_lt hm)
      linarith
  · rintro rfl
    by_cases h : max a.length a.length = 0
    · unfold levenshteinRatio
      rw [if_pos h]
    · rw [levenshteinRatio_eq_one_sub_div a a h, levenshteinDistance_self a.data]
      norm_num

/-- Witness for C10 at a concrete pair of strings. -/
theorem similarity_ratio_in_unit_interval_witness :
    levenshteinDistance "abc".data "abc".data ≤
      max ("abc" : String).length ("abc" : String).length ∧
    0 ≤ levenshteinRatio "abc" "abc" ∧ levenshteinRatio "abc" "abc" ≤ 1 ∧
    (("abc" : String) = "abc" → levenshteinRatio "abc" "abc" = 1) :=
  similarity_ratio_in_unit_interval "abc" "abc"

example : levenshteinRatio "abc" "abc" = 1 := by decide
example : levenshteinRatio "fix the bug in login" "fix the bug in login page" = mkRat 4 5 := by
  decide
example : levenshteinRatio "fix the bug in login" "fix the bug in login page" ≥ mkRat 3 5 := by
  decide

/-! ## Data model (src/lib/types.ts)

`NormalizedEvent` is projected onto the fields the detectors and adapters
below actually read.  ISO-8601 UTC timestamps are modelled as epoch
milliseconds (`Nat`), which is order-isomorphic for valid timestamps;
opaque key/value mappings are modelled as association lists with opaque
string values. -/

inductive Harness
  | claude_code
  | gemini_cli
  | pi_coding_agent
deriving DecidableEq, Repr, Inhabited

inductive NormalizedEventType
  | session_start
  | session_end
  | user_prompt
  | tool_use
  | tool_result
  | compaction
  | permission_result
deriving DecidableEq, Repr, Inhabited

structure ToolResultInfo where
  success : Bool
  output : Option String := none
  error : Option String := none
deriving DecidableEq, Repr

structure NormalizedEvent where
  timestamp : Nat
  harness : Harness
  type : NormalizedEventType
  session_id : String := ""
  cwd : Option String := none
  message : Option String := none
  tool_name : Option String := none
  tool_input : Option (List (String × String)) := none
  tool_result : Option ToolResultInfo := none
  permission_granted : Option Bool := none
deriving DecidableEq, Repr, Inhabited

inductive Severity
  | low
  | medium
  | high
deriving DecidableEq, Repr

inductive FrictionSignalType
  | rephrase_storm
  | tool_failure_cascade
  | context_churn
  | permission_friction
  | abandon_signal
  | long_stall
  | retry_loop
deriving DecidableEq, Repr

structure Evidence where
  event_indices : List Nat
  sample_data : Option String := none
deriving DecidableEq, Repr

structure FrictionSignal where
  type : FrictionSignalType
  severity : Severity
  count : Nat
  context : String
  evidence : Evidence
deriving DecidableEq, Repr

/-- Tagger thresholds (src/lib/types.ts `TaggerConfig`); similarity
thresholds are rationals in `[0,1]`, counters non-negative numbers (the
config validator only checks non-negativity, so zero thresholds are
accepted). -/
structure TaggerConfig where
  rephrase_threshold : Nat
  rephrase_similarity : ℚ
  tool_failure_cascade_min : Nat
  context_churn_threshold : Nat
  abandon_window_seconds : ℚ
  stall_threshold_seconds : ℚ
  retry_loop_min : Nat
  retry_similarity : ℚ
deriving DecidableEq, Repr

/-- src/lib/heuristics.ts `severityFromCount`. -/
def severityFromCount (count lowThreshold highThreshold : Nat) : Severity :=
  if count ≥ highThreshold then .high
  else if count ≥ lowThreshold then .medium
  else .low

/-! ## Tool failure cascade detector (src/lib/heuristics.ts `detectToolFailureCascade`) -/

/-- JS test `event.tool_result?.success === false`. -/
def isFailedResult (e : NormalizedEvent) : Bool :=
  e.tool_result.map (·.success) = some false

/-- The `for` loop of `detectToolFailureCascade`, carried over the indexed
event list with state `(maxStreak, currentStreak, streakIndices, bestIndices)`. -/
def cascadeLoop : List (Nat × NormalizedEvent) → Nat → Nat → List Nat → List Nat →
    Nat × List Nat
  | [], maxStreak, _, _, bestIndices => (maxStreak, bestIndices)
  | (i, event) :: rest, maxStreak, currentStreak, streakIndices, bestIndices =>
    if event.type = .tool_result then
      if isFailedResult event then
        let cs := currentStreak + 1
        let si := streakIndices ++ [i]
        if maxStreak < cs then cascadeLoop rest cs cs si si
        else cascadeLoop rest maxStreak cs si bestIndices
      else cascadeLoop rest maxStreak 0 [] bestIndices
    else cascadeLoop rest maxStreak currentStreak streakIndices bestIndices

/-- src/lib/heuristics.ts `detectToolFailureCascade`. -/
def detectToolFailureCascade (events : List NormalizedEvent) (config : TaggerConfig) :
    Option FrictionSignal :=
  let st := cascadeLoop events.enum 0 0 [] []
  let maxStreak := st.1
  let bestIndices := st.2
  if maxStreak < config.tool_failure_cascade_min then none
  else
    let failedTools := bestIndices.filterMap fun i =>
      ((events.getD i default).tool_name).filter (· ≠ "")
    some {
      type := .tool_failure_cascade
      severity := severityFromCount maxStreak config.tool_failure_cascade_min
        (config.tool_failure_cascade_min * 2)
      count := maxStreak
      context := toString maxStreak ++ " consecutive tool failures"
      evidence := {
        event_indices := bestIndices
        sample_data := some (String.intercalate ", " failedTools)
      }
    }

/-! Specification-level notion: the longest run of consecutive `true`s in a
list of flags, defined by run decomposition (length of the leading run
versus the longest run after the first break). -/

/-- Length of the leading run of `true`s. -/
def leadTrue (l : List Bool) : Nat := (l.takeWhile id).length

/-- Longest run of consecutive `true`s. -/
def longestTrueRun : List Bool → Nat
  | [] => 0
  | b :: rest =>
    max (leadTrue (b :: rest)) (longestTrueRun ((b :: rest).dropWhile id).tail)
termination_by l => l.length
decreasing_by
  have h1 : ((b :: rest).dropWhile id).length ≤ (b :: rest).length :=
    (List.dropWhile_sublist (l := b :: rest) (p := id)).length_le
  have h2 : (((b :: rest).dropWhile id).tail).length = ((b :: rest).dropWhile id).length - 1 :=
    List.length_tail _
  simp only [List.length_cons] at h1 ⊢
  omega

/-- The failure flags of the tool-result subsequence: one Boolean per
`tool_result` event, `true` when it failed. -/
def failFlags (events : List NormalizedEvent) : List Bool :=
  (events.filter (·.type = .tool_result)).map isFailedResult

/-- The longest run of consecutive failing tool-result events, with events
that are not tool results skipped. -/
def longestFailureRun (events : List NormalizedEvent) : Nat :=
  longestTrueRun (failFlags events)

/-- The streak-tracking part of `cascadeLoop`, abstracted to the list of
failure flags. -/
def streakLoop : List Bool → Nat → Nat → Nat
  | [], maxS, _ => maxS
  | true :: rest, maxS, cur =>
    if maxS < cur + 1 then streakLoop rest (cur + 1) (cur + 1)
    else streakLoop rest maxS (cur + 1)
  | false :: rest, maxS, _ => streakLoop rest maxS 0

theorem cascadeLoop_fst :
    ∀ (l : List (Nat × NormalizedEvent)) (maxS cur : Nat) (si bi : List Nat),
      (cascadeLoop l maxS cur si bi).1 =
        streakLoop (((l.map Prod.snd).filter (·.type = .tool_result)).map isFailedResult)
          maxS cur
  | [], _, _, _, _ => rfl
  | (i, event) :: rest, maxS, cur, si, bi => by
    by_cases ht : event.type = NormalizedEventType.tool_result
    · have hfilter : (((i, event) :: rest).map Prod.snd).filter (·.type = .tool_result) =
          event :: ((rest.map Prod.snd).filter (·.type = .tool_result)) := by
        simp [ht]
      rcases Bool.eq_false_or_eq_true (isFailedResult event) with hf | hf
      · have hstep : cascadeLoop ((i, event) :: rest) maxS cur si bi =
            if maxS < cur + 1 then
              cascadeLoop rest (cur + 1) (cur + 1) (si ++ [i]) (si ++ [i])
            else cascadeLoop rest maxS (cur + 1) (si ++ [i]) bi := by
          simp [cascadeLoop, ht, hf]
        rw [hstep, hfilter, List.map_cons, hf, streakLoop]
        split
        · exact cascadeLoop_fst rest (cur + 1) (cur + 1) _ _
        · exact cascadeLoop_fst rest maxS (cur + 1) _ _
      · have hstep : cascadeLoop ((i, event) :: rest) maxS cur si bi =
            cascadeLoop rest maxS 0 [] bi := by
          simp [cascadeLoop, ht, hf]
        rw [hstep, hfilter, List.map_cons, hf, streakLoop]
        exact cascadeLoop_fst rest maxS 0 [] bi
    · have hfilter : (((i, event) :: rest).map Prod.snd).filter (·.type = .tool_result) =
          (rest.map Prod.snd).filter (·.type = .tool_result) := by
        simp [ht]
      have hstep : cascadeLoop ((i, event) :: rest) maxS cur si bi =
          cascadeLoop rest maxS cur si bi := by
        simp [cascadeLoop, ht]
      rw [hstep, hfilter]
      exact cascadeLoop_fst rest maxS cur si bi

theorem longestTrueRun_eq (l : List Bool) :
    longestTrueRun l = max (leadTrue l) (longestTrueRun ((l.dropWhile id).tail)) := by
  cases l with
  | nil => simp [longestTrueRun, leadTrue]
  | cons b rest => rw [longestTrueRun]

theorem leadTrue_cons_true (r : List Bool) : leadTrue (true :: r) = leadTrue r + 1 := by
  simp [leadTrue, List.takeWhile_cons]

theorem leadTrue_cons_false (r : List Bool) : leadTrue (false :: r) = 0 := by
  simp [leadTrue, List.takeWhile_cons]

theorem streakLoop_eq :
    ∀ (flags : List Bool) (maxS cur : Nat), cur ≤ maxS →
      streakLoop flags maxS cur =
        max maxS (max (cur + leadTrue flags) (longestTrueRun ((flags.dropWhile id).tail)))
  | [], maxS, cur, h => by
    simp only [streakLoop, leadTrue, List.takeWhile_nil, List.length_nil, List.dropWhile_nil,
      List.tail_nil, longestTrueRun]
    omega
  | true :: rest, maxS, cur, h => by
    have hlead := leadTrue_cons_true rest
    have hdrop : ((true :: rest).dropWhile id).tail = (rest.dropWhile id).tail := by
      simp [List.dropWhile_cons]
    rw [streakLoop, hlead, hdrop]
    split
    · have ih := streakLoop_eq rest (cur + 1) (cur + 1) (le_refl _)
      rw [ih]
      omega
    · have ih := streakLoop_eq rest maxS (cur + 1) (by omega)
      rw [ih]
      omega
  | false :: rest, maxS, cur, h => by
    have hlead := leadTrue_cons_false rest
    have hdrop : ((false :: rest).dropWhile id).tail = rest := by
      simp [List.dropWhile_cons]
    have hltr := longestTrueRun_eq rest
    rw [streakLoop, hlead, hdrop]
    have ih := streakLoop_eq rest maxS 0 (by omega)
    rw [ih]
    omega

/-- The streak fold computes exactly the longest run of failing
tool-result events. -/
theorem cascadeLoop_count (events : List NormalizedEvent) :
    (cascadeLoop events.enum 0 0 [] []).1 = longestFailureRun events := by
  rw [cascadeLoop_fst, List.enum_map_snd]
  have h := streakLoop_eq (failFlags events) 0 0 (le_refl 0)
  have hflags : ((events.filter (·.type = .tool_result)).map isFailedResult) =
      failFlags events := rfl
  rw [hflags, h, longestFailureRun, longestTrueRun_eq (failFlags events)]
  omega

/-- A failing `tool_result` event. -/
def cascadeFail : NormalizedEvent :=
  { timestamp := 0, harness := .claude_code, type := .tool_result,
    tool_result := some { success := false } }

/-- A successful `tool_result` event. -/
def cascadeSucc : NormalizedEvent :=
  { timestamp := 0, harness := .claude_code, type := .tool_result,
    tool_result := some { success := true } }

/-- The spec's cascade example: 2 failures, 1 success, 4 failures. -/
def cascadeExampleEvents : List NormalizedEvent :=
  [cascadeFail, cascadeFail, cascadeSucc, cascadeFail, cascadeFail, cascadeFail, cascadeFail]

/-- A tagger configuration with the spec's example thresholds
(`cascade-min 3`, rephrase threshold 3, similarity 0.6). -/
def exampleTaggerConfig : TaggerConfig :=
  { rephrase_threshold := 3
    rephrase_similarity := mkRat 3 5
    tool_failure_cascade_min := 3
    context_churn_threshold := 3
    abandon_window_seconds := mkRat 120 1
    stall_threshold_seconds := mkRat 120 1
    retry_loop_min := 3
    retry_similarity := mkRat 4 5 }

/-- C7: the tool-failure-cascade detector computes the length of the
longest run of consecutive failing `tool_result` events (events that are
not tool results are skipped without breaking the run), fires if and only
if that longest run is at least the configured threshold, and reports that
longest run as its count; for 2 failures, 1 success, then 4 failures with
threshold 3 the reported count is 4, not 6. -/
theorem tool_failure_cascade_longest_run (events : List NormalizedEvent)
    (config : TaggerConfig) :
    ((detectToolFailureCascade events config).isSome ↔
      config.tool_failure_cascade_min ≤ longestFailureRun events) ∧
    (∀ s, detectToolFailureCascade events config = some s →
      s.count = longestFailureRun events) ∧
    (detectToolFailureCascade cascadeExampleEvents exampleTaggerConfig).map (·.count) =
      some 4 := by
  have hc := cascadeLoop_count events
  refine ⟨?_, ?_, by decide⟩
  · simp only [detectToolFailureCascade]
    rw [hc]
    split
    · simp only [Option.isSome_none, Bool.false_eq_true, false_iff]
      omega
    · simp only [Option.isSome_some, true_iff]
      omega
  · intro s hs
    simp only [detectToolFailureCascade] at hs
    rw [hc] at hs
    split at hs
    · cases hs
    · cases Option.some.inj hs
      rfl

/-- Witness for C7: the detector fires on the concrete cascade example
and its count is the longest failure run. -/
theorem tool_failure_cascade_longest_run_witness :
    ∃ s, detectToolFailureCascade cascadeExampleEvents exampleTaggerConfig = some s ∧
      s.count = longestFailureRun cascadeExampleEvents := by
  have h := (tool_failure_cascade_longest_run cascadeExampleEvents exampleTaggerConfig).2.1
  rcases hs : detectToolFailureCascade cascadeExampleEvents exampleTaggerConfig with _ | s
  · exact absurd hs (by decide)
  · exact ⟨s, rfl, h s hs⟩

/-! ## Rephrase storm detector (src/lib/heuristics.ts `detectRephraseStorm`) -/

/-- JS truthiness of `event.message` (present and non-empty). -/
def msgTruthy (e : NormalizedEvent) : Bool :=
  match e.message with
  | some s => s ≠ ""
  | none => false

/-- The detector's `prompts` list: indexed user prompts with a truthy
message, in event order. -/
def promptsOf (events : List NormalizedEvent) : List (Nat × NormalizedEvent) :=
  events.enum.filter fun x => decide (x.2.type = .user_prompt) && msgTruthy x.2

/-- The `for i = 1 …` loop of `detectRephraseStorm`, walking the adjacent
pairs of the prompt list with state `(rephraseCount, indices, samples)`. -/
def rephraseLoop (similarity : ℚ) :
    List ((Nat × NormalizedEvent) × (Nat × NormalizedEvent)) → Nat → List Nat → List String →
    Nat × List Nat × List String
  | [], count, indices, samples => (count, indices, samples)
  | (prev, curr) :: rest, count, indices, samples =>
    if levenshteinRatio (prev.2.message.getD "") (curr.2.message.getD "") ≥ similarity then
      let indices' := if indices.isEmpty then indices ++ [prev.1, curr.1]
        else indices ++ [curr.1]
      let samples' := if samples.length < 3 then samples ++ [curr.2.message.getD ""]
        else samples
      rephraseLoop similarity rest (count + 1) indices' samples'
    else rephraseLoop similarity rest count indices samples

/-- src/lib/heuristics.ts `detectRephraseStorm`: compares each user prompt
only to its immediately preceding prompt. -/
def detectRephraseStorm (events : List NormalizedEvent) (config : TaggerConfig) :
    Option FrictionSignal :=
  let prompts := promptsOf events
  if prompts.length < 2 then none
  else
    let st := rephraseLoop config.rephrase_similarity (prompts.zip prompts.tail) 0 [] []
    let rephraseCount := st.1
    if rephraseCount < config.rephrase_threshold then none
    else some {
      type := .rephrase_storm
      severity := severityFromCount rephraseCount config.rephrase_threshold
        (config.rephrase_threshold * 2)
      count := rephraseCount
      context := "User rephrased " ++ toString rephraseCount ++ " times with similarity >= " ++
        toString config.rephrase_similarity
      evidence := {
        event_indices := st.2.1
        sample_data := some (String.intercalate " | " st.2.2)
      }
    }

/-- Specification-level count: the number of adjacent prompt pairs whose
similarity reaches the threshold. -/
def adjacentSimilarPairs (events : List NormalizedEvent) (similarity : ℚ) : Nat :=
  let prompts := promptsOf events
  ((prompts.zip prompts.tail).filter fun pc =>
    levenshteinRatio (pc.1.2.message.getD "") (pc.2.2.message.getD "") ≥ similarity).length

theorem rephraseLoop_count (similarity : ℚ) :
    ∀ (pairs : List ((Nat × NormalizedEvent) × (Nat × NormalizedEvent)))
      (count : Nat) (indices : List Nat) (samples : List String),
      (rephraseLoop similarity pairs count indices samples).1 =
        count + (pairs.filter fun pc =>
          levenshteinRatio (pc.1.2.message.getD "") (pc.2.2.message.getD "") ≥ similarity).length
  | [], count, indices, samples => by simp [rephraseLoop]
  | (prev, curr) :: rest, count, indices, samples => by
    by_cases hr : levenshteinRatio (prev.2.message.getD "") (curr.2.message.getD "") ≥ similarity
    · have hstep : rephraseLoop similarity ((prev, curr) :: rest) count indices samples =
          rephraseLoop similarity rest (count + 1)
            (if indices.isEmpty then indices ++ [prev.1, curr.1] else indices ++ [curr.1])
            (if samples.length < 3 then samples ++ [curr.2.message.getD ""] else samples) := by
        simp [rephraseLoop, hr]
      rw [hstep, rephraseLoop_count]
      simp [List.filter_cons, hr]
      omega
    · have hstep : rephraseLoop similarity ((prev, curr) :: rest) count indices samples =
          rephraseLoop similarity rest count indices samples := by
        simp [rephraseLoop, hr]
      rw [hstep, rephraseLoop_count]
      simp [List.filter_cons, hr]

theorem zip_tail_nil_of_short (l : List (Nat × NormalizedEvent)) (h : l.length < 2) :
    l.zip l.tail = [] := by
  cases l with
  | nil => rfl
  | cons x t =>
    cases t with
    | nil => rfl
    | cons y t2 =>
      simp only [List.length_cons] at h
      omega

/-- The four prompts of the spec's rephrase example. -/
def promptEvent (t : Nat) (msg : String) : NormalizedEvent :=
  { timestamp := t, harness := .claude_code, type := .user_prompt, message := some msg }

def rephraseExampleEvents : List NormalizedEvent :=
  [promptEvent 0 "fix the bug in login",
   promptEvent 1 "fix the bug in login page",
   promptEvent 2 "fix the bug in the login",
   promptEvent 3 "fix the bugs in login"]

/-- The example tagger configuration with a zero rephrase threshold — a
configuration the config validator accepts (it only checks
non-negativity of the count fields). -/
def zeroThresholdConfig : TaggerConfig :=
  { exampleTaggerConfig with rephrase_threshold := 0 }

/-- C8 counterexample: at the legal threshold 0 with fewer than two
prompts, the similar-adjacent-pair count (0) reaches the threshold, yet
the detector's early return for fewer than two prompts yields no signal —
so "fires if and only if the count is at least the threshold" fails. -/
theorem rephrase_storm_zero_threshold_counterexample :
    zeroThresholdConfig.rephrase_threshold ≤
      adjacentSimilarPairs [] zeroThresholdConfig.rephrase_similarity ∧
    detectRephraseStorm [] zeroThresholdConfig = none :=
  ⟨by decide, by decide⟩

/-- C8 (amended): the rephrase-storm detector compares each user prompt
only to its immediately preceding prompt via the normalized similarity
ratio, counts the similar adjacent pairs, and fires if and only if at
least two prompts exist and that count is at least the configured
threshold (for positive thresholds the two-prompt guard is implied by the
count); on the four spec prompts with threshold 3 and similarity 0.6 it
fires with count ≥ 3. -/
theorem rephrase_storm_fires_iff (events : List NormalizedEvent)
    (config : TaggerConfig) :
    ((detectRephraseStorm events config).isSome ↔
      2 ≤ (promptsOf events).length ∧
      config.rephrase_threshold ≤ adjacentSimilarPairs events config.rephrase_similarity) ∧
    (∀ s, detectRephraseStorm events config = some s →
      s.count = adjacentSimilarPairs events config.rephrase_similarity) ∧
    ((detectRephraseStorm rephraseExampleEvents exampleTaggerConfig).isSome = true ∧
      3 ≤ ((detectRephraseStorm rephraseExampleEvents exampleTaggerConfig).map
        (·.count)).getD 0) := by
  have hcount := rephraseLoop_count config.rephrase_similarity
    ((promptsOf events).zip (promptsOf events).tail) 0 [] []
  constructor
  · simp only [detectRephraseStorm]
    split
    · next hshort =>
      simp only [Option.isSome_none, Bool.false_eq_true, false_iff]
      rintro ⟨h2, -⟩
      omega
    · next hlong =>
      rw [hcount]
      split
      · next hlt =>
        simp only [Option.isSome_none, Bool.false_eq_true, false_iff]
        simp only [adjacentSimilarPairs]
        rintro ⟨-, hc⟩
        omega
      · next hge =>
        simp only [Option.isSome_some, true_iff]
        simp only [adjacentSimilarPairs]
        exact ⟨by omega, by omega⟩
  constructor
  · intro s hs
    simp only [detectRephraseStorm] at hs
    split at hs
    · cases hs
    · rw [hcount] at hs
      split at hs
      · cases hs
      · cases Option.some.inj hs
        simp only [adjacentSimilarPairs]
        omega
  · exact ⟨by decide, by decide⟩

/-- Witness for C8 at the spec's concrete four-prompt example: the iff's
right-hand side holds there, so the detector fires. -/
theorem rephrase_storm_fires_iff_witness :
    (detectRephraseStorm rephraseExampleEvents exampleTaggerConfig).isSome = true :=
  (rephrase_storm_fires_iff rephraseExampleEvents exampleTaggerConfig).1.mpr (by decide)

/-! ## Trend classification (src/lib/pattern-analyzer.ts `classifyTrend`)

Per-day signal counts are Records in the source; we model `counts` as an
association list with JS `?? 0` lookup.  The float thresholds
`secondHalf > firstHalf * 1.2` and `secondHalf < firstHalf * 0.8` are read
as exact rationals and scaled to the integer comparisons
`5 * secondHalf > 6 * firstHalf` and `5 * secondHalf < 4 * firstHalf`
(double rounding agrees at the small integer counts involved). -/

structure DailyTrend where
  date : String
  counts : List (String × Nat)
deriving DecidableEq, Repr

/-- JS `t.counts[signalType] ?? 0`. -/
def lookupCount (counts : List (String × Nat)) (key : String) : Nat :=
  ((counts.find? fun kv => kv.1 = key).map (·.2)).getD 0

inductive PatternTrend
  | increasing
  | stable
  | decreasing
  | new
deriving DecidableEq, Repr

/-- src/lib/pattern-analyzer.ts `classifyTrend`. -/
def classifyTrend (signalType : String) (trends : List DailyTrend) : PatternTrend :=
  let counts := trends.map fun t => lookupCount t.counts signalType
  let activeDays := (counts.filter fun c => 0 < c).length
  if activeDays = 0 then .new
  else
    let nonZeroIndices := (counts.enum.filter fun ic => 0 < ic.2).map (·.1)
    if nonZeroIndices.length = 1 ∧ nonZeroIndices.getD 0 0 = counts.length - 1 then .new
    else if activeDays < 3 then .new
    else
      let mid := counts.length / 2
      let firstHalf := (counts.take mid).sum
      let secondHalf := (counts.drop mid).sum
      if 5 * secondHalf > 6 * firstHalf then .increasing
      else if 5 * secondHalf < 4 * firstHalf then .decreasing
      else .stable

/-- The per-day count series of one signal type over the window. -/
def trendCounts (signalType : String) (trends : List DailyTrend) : List Nat :=
  trends.map fun t => lookupCount t.counts signalType

/-- Number of days with a nonzero count. -/
def activeDayCount (signalType : String) (trends : List DailyTrend) : Nat :=
  ((trendCounts signalType trends).filter fun c => 0 < c).length

/-- The only nonzero count sits on the most recent (last) day. -/
def onlyMostRecentActive (signalType : String) (trends : List DailyTrend) : Prop :=
  (((trendCounts signalType trends).enum.filter fun ic => 0 < ic.2).map (·.1)) =
    [(trendCounts signalType trends).length - 1]

def firstHalfSum (signalType : String) (trends : List DailyTrend) : Nat :=
  ((trendCounts signalType trends).take ((trendCounts signalType trends).length / 2)).sum

def secondHalfSum (signalType : String) (trends : List DailyTrend) : Nat :=
  ((trendCounts signalType trends).drop ((trendCounts signalType trends).length / 2)).sum

theorem enumFrom_filter_pos_length :
    ∀ (n : Nat) (l : List Nat),
      ((List.enumFrom n l).filter fun ic => 0 < ic.2).length =
        (l.filter fun c => 0 < c).length
  | _, [] => rfl
  | n, c :: rest => by
    have ih := enumFrom_filter_pos_length (n + 1) rest
    simp only [List.enumFrom, List.filter_cons]
    by_cases hc : 0 < c
    · simp [hc]
      omega
    · simp [hc]
      omega

theorem enum_filter_pos_length (l : List Nat) :
    ((l.enum.filter fun ic => 0 < ic.2).map (·.1)).length =
      (l.filter fun c => 0 < c).length := by
  rw [List.length_map]
  exact enumFrom_filter_pos_length 0 l

/-- A six-day window holding the given daily counts for signal type `x`. -/
def trendRow (ns : List Nat) : List DailyTrend :=
  ns.map fun n => { date := "", counts := [("x", n)] }

/-- C3: trend classification returns `increasing` when the second-half sum
exceeds 1.2× the first-half sum, `decreasing` below 0.8×, `stable`
otherwise; `new` overrides the ratio whenever fewer than 3 days are active
or the only nonzero count is on the most recent day.  `[1,1,1,5,5,5]`
classifies increasing, `[5,5,5,1,1,1]` decreasing, `[3,3,3,3,3,3]` stable,
and a count only on the final day classifies new. -/
theorem trend_classification (signalType : String) (trends : List DailyTrend) :
    ((activeDayCount signalType trends < 3 ∨ onlyMostRecentActive signalType trends) →
      classifyTrend signalType trends = .new) ∧
    (3 ≤ activeDayCount signalType trends →
      classifyTrend signalType trends =
        (if 5 * secondHalfSum signalType trends > 6 * firstHalfSum signalType trends then
          .increasing
        else if 5 * secondHalfSum signalType trends < 4 * firstHalfSum signalType trends then
          .decreasing
        else .stable)) ∧
    (classifyTrend "x" (trendRow [1, 1, 1, 5, 5, 5]) = .increasing ∧
     classifyTrend "x" (trendRow [5, 5, 5, 1, 1, 1]) = .decreasing ∧
     classifyTrend "x" (trendRow [3, 3, 3, 3, 3, 3]) = .stable ∧
     classifyTrend "x" (trendRow [0, 0, 0, 0, 0, 9]) = .new) := by
  have hnz := enum_filter_pos_length (trendCounts signalType trends)
  simp only [trendCounts] at hnz
  refine ⟨?_, ?_, by decide, by decide, by decide, by decide⟩
  · intro h
    have hlt : ((trends.map fun t => lookupCount t.counts signalType).filter
        fun c => 0 < c).length < 3 := by
      rcases h with h | h
      · simpa only [activeDayCount, trendCounts] using h
      · have hlen := congrArg List.length h
        simp only [onlyMostRecentActive, trendCounts, List.length_singleton] at hlen
        omega
    simp only [classifyTrend]
    repeat' split
    all_goals try rfl
  · intro h3
    simp only [activeDayCount, trendCounts] at h3
    have hc1 : ¬(((trends.map fun t => lookupCount t.counts signalType).filter
        fun c => 0 < c).length = 0) := by omega
    have hc3 : ¬(((trends.map fun t => lookupCount t.counts signalType).filter
        fun c => 0 < c).length < 3) := by omega
    have hc2 : ¬((((trends.map fun t => lookupCount t.counts signalType).enum.filter
          fun ic => 0 < ic.2).map (·.1)).length = 1 ∧
        (((trends.map fun t => lookupCount t.counts signalType).enum.filter
          fun ic => 0 < ic.2).map (·.1)).getD 0 0 =
          (trends.map fun t => lookupCount t.counts signalType).length - 1) := by
      rintro ⟨h1a, -⟩
      omega
    simp only [classifyTrend, if_neg hc1, if_neg hc2, if_neg hc3]
    simp only [firstHalfSum, secondHalfSum, trendCounts]

/-! ## Tree-based adapter linearization (src/adapters/pi-coding-agent.ts)

Entries form a forest via `id`/`parentId`; `linearizeEntries` builds a
children map (`Map` in the source, modelled as an association list with
unique keys and in-place update) and walks from the last root, always
taking the last child.  The unbounded `while` loop is modelled with fuel
`entries.length`, which suffices on any forest (a descending path never
revisits an entry). -/

/-- A lightweight JSON value (string, or object with opaque serialized
field values), used for raw tool results and response payloads. -/
inductive JsonLite
  | str (s : String)
  | obj (fields : List (String × String))
deriving DecidableEq, Repr

structure PiEntry where
  type : String
  id : String
  parentId : Option String := none
  timestamp : Option Nat := none
  role : Option String := none
  content : Option String := none
  toolName : Option String := none
  toolInput : Option (List (String × String)) := none
  toolResult : Option JsonLite := none
deriving DecidableEq, Repr, Inhabited

/-- One step of building the children map: append the entry to its
parent's bucket, creating the bucket on first sight (JS `Map` get/push
else set). -/
def addChild : List (Option String × List PiEntry) → PiEntry →
    List (Option String × List PiEntry)
  | [], e => [(e.parentId, [e])]
  | (k, l) :: rest, e =>
    if k = e.parentId then (k, l ++ [e]) :: rest
    else (k, l) :: addChild rest e

/-- The `childrenOf` map of `linearizeEntries`. -/
def childrenMap (entries : List PiEntry) : List (Option String × List PiEntry) :=
  entries.foldl addChild []

/-- JS `childrenOf.get(pid)`, with a missing bucket read as `[]`. -/
def lookupChildren (m : List (Option String × List PiEntry)) (pid : Option String) :
    List PiEntry :=
  ((m.find? fun kv => kv.1 = pid).map (·.2)).getD []

/-- The `while (current)` walk: push the current entry, then move to its
last child. -/
def walkLast (m : List (Option String × List PiEntry)) : Nat → PiEntry → List PiEntry
  | 0, current => [current]
  | fuel + 1, current =>
    match (lookupChildren m (some current.id)).getLast? with
    | none => [current]
    | some next => current :: walkLast m fuel next

/-- src/adapters/pi-coding-agent.ts `linearizeEntries`: walk the tree from
the last root, always taking the last child; with no root, fail soft and
return the raw entries. -/
def linearizeEntries (entries : List PiEntry) : List PiEntry :=
  if entries.isEmpty then []
  else
    let m := childrenMap entries
    let roots := lookupChildren m none
    match roots.getLast? with
    | none => entries
    | some r => walkLast m entries.length r

/-- Specification-level children: the entries whose parent pointer is
`pid`, in encounter order. -/
def childrenOfSpec (entries : List PiEntry) (pid : Option String) : List PiEntry :=
  entries.filter (·.parentId = pid)

/-- Specification-level path: starting at an entry, repeatedly descend to
the last child. -/
def specDescend (entries : List PiEntry) : Nat → PiEntry → List PiEntry
  | 0, current => [current]
  | fuel + 1, current =>
    match (childrenOfSpec entries (some current.id)).getLast? with
    | none => [current]
    | some next => current :: specDescend entries fuel next

/-- Specification-level linearization: the path obtained by starting at
the last root and repeatedly descending to the last child. -/
def lastChildPath (entries : List PiEntry) : List PiEntry :=
  match (childrenOfSpec entries none).getLast? with
  | none => []
  | some r => specDescend entries entries.length r

theorem addChild_lookup :
    ∀ (m : List (Option String × List PiEntry)) (e : PiEntry) (q : Option String),
      lookupChildren (addChild m e) q =
        lookupChildren m q ++ (if e.parentId = q then [e] else [])
  | [], e, q => by
    by_cases hq : e.parentId = q
    · simp [addChild, lookupChildren, hq, List.find?]
    · simp [addChild, lookupChildren, List.find?, hq]
  | (k, l) :: rest, e, q => by
    by_cases hk : k = e.parentId
    · by_cases hq : k = q
      · have hpq : e.parentId = q := by rw [← hk, hq]
        simp [addChild, lookupChildren, List.find?, hk, hq, hpq]
      · have hne : ¬e.parentId = q := by rw [← hk]; exact hq
        simp [addChild, lookupChildren, List.find?, hk, hq, hne]
    · by_cases hq : k = q
      · have hne : ¬e.parentId = q := by
          rw [← hq]
          exact fun hh => hk hh.symm
        have hqe : ¬q = e.parentId := fun hh => hne hh.symm
        simp [addChild, lookupChildren, List.find?, hk, hq, hne, hqe]
      · have h1 : lookupChildren ((k, l) :: addChild rest e) q =
            lookupChildren (addChild rest e) q := by
          simp [lookupChildren, List.find?, hq]
        have h2 : lookupChildren ((k, l) :: rest) q = lookupChildren rest q := by
          simp [lookupChildren, List.find?, hq]
        simp only [addChild, if_neg hk, h1, h2]
        exact addChild_lookup rest e q

theorem childrenMap_lookup_gen :
    ∀ (entries : List PiEntry) (m : List (Option String × List PiEntry)) (q : Option String),
      lookupChildren (entries.foldl addChild m) q =
        lookupChildren m q ++ entries.filter (·.parentId = q)
  | [], m, q => by simp [List.foldl]
  | e :: rest, m, q => by
    simp only [List.foldl, List.filter_cons]
    rw [childrenMap_lookup_gen rest (addChild m e) q, addChild_lookup m e q]
    by_cases hq : e.parentId = q
    · simp [hq, List.append_assoc]
    · simp [hq]

/-- The children map agrees with the spec-level children relation. -/
theorem childrenMap_lookup (entries : List PiEntry) (q : Option String) :
    lookupChildren (childrenMap entries) q = childrenOfSpec entries q := by
  rw [childrenMap, childrenMap_lookup_gen entries [] q]
  simp [lookupChildren, childrenOfSpec]

theorem walkLast_eq_specDescend (entries : List PiEntry) :
    ∀ (fuel : Nat) (cur : PiEntry),
      walkLast (childrenMap entries) fuel cur = specDescend entries fuel cur
  | 0, cur => rfl
  | fuel + 1, cur => by
    simp only [walkLast, specDescend, childrenMap_lookup]
    cases (childrenOfSpec entries (some cur.id)).getLast? with
    | none => rfl
    | some next =>
      exact congrArg (fun t => cur :: t) (walkLast_eq_specDescend entries fuel next)

/-- C2: for every entry forest with at least one root, `linearizeEntries`
returns exactly the path obtained by starting at the last root and
repeatedly descending to the last child, and no entry outside that path
(i.e. on an abandoned branch) appears in the output. -/
theorem pi_linearization_last_child_path (entries : List PiEntry)
    (h : childrenOfSpec entries none ≠ []) :
    linearizeEntries entries = lastChildPath entries ∧
    ∀ e, e ∉ lastChildPath entries → e ∉ linearizeEntries entries := by
  have hne : ¬entries.isEmpty := by
    intro hempty
    rw [List.isEmpty_iff] at hempty
    subst hempty
    simp [childrenOfSpec] at h
  have heq : linearizeEntries entries = lastChildPath entries := by
    simp only [linearizeEntries, lastChildPath]
    rw [if_neg hne, childrenMap_lookup]
    cases hlast : (childrenOfSpec entries none).getLast? with
    | none =>
      rw [List.getLast?_eq_none_iff] at hlast
      exact absurd hlast h
    | some r => exact walkLast_eq_specDescend entries entries.length r
  exact ⟨heq, fun e hnot => heq ▸ hnot⟩

/-! The spec's fork example: a root with an abandoned three-entry branch
(`a1 → a2 → a3`, attempted first) and a newer four-entry branch
(`b1 → b2 → b3 → b4`). -/

def piR : PiEntry := { type := "message", id := "r" }
def piA1 : PiEntry := { type := "message", id := "a1", parentId := some "r" }
def piA2 : PiEntry := { type := "message", id := "a2", parentId := some "a1" }
def piA3 : PiEntry := { type := "message", id := "a3", parentId := some "a2" }
def piB1 : PiEntry := { type := "message", id := "b1", parentId := some "r" }
def piB2 : PiEntry := { type := "message", id := "b2", parentId := some "b1" }
def piB3 : PiEntry := { type := "message", id := "b3", parentId := some "b2" }
def piB4 : PiEntry := { type := "message", id := "b4", parentId := some "b3" }

def piForkExample : List PiEntry := [piR, piA1, piA2, piA3, piB1, piB2, piB3, piB4]

/-- Witness for C2: on the fork example the linearization is the last-child
path `r → b1 → b2 → b3 → b4`, and the longer-but-abandoned `a` branch is
absent. -/
theorem pi_linearization_last_child_path_witness :
    linearizeEntries piForkExample = lastChildPath piForkExample ∧
    linearizeEntries piForkExample = [piR, piB1, piB2, piB3, piB4] ∧
    piA1 ∉ linearizeEntries piForkExample ∧
    piA2 ∉ linearizeEntries piForkExample ∧
    piA3 ∉ linearizeEntries piForkExample :=
  ⟨(pi_linearization_last_child_path piForkExample (by decide)).1,
    by decide, by decide, by decide, by decide⟩

/-- Witness for C3 at concrete six-day windows (discharging the two
implications). -/
theorem trend_classification_witness :
    classifyTrend "x" (trendRow [0, 0, 0, 0, 0, 9]) = .new ∧
    classifyTrend "x" (trendRow [1, 1, 1, 5, 5, 5]) =
      (if 5 * secondHalfSum "x" (trendRow [1, 1, 1, 5, 5, 5]) >
          6 * firstHalfSum "x" (trendRow [1, 1, 1, 5, 5, 5]) then .increasing
      else if 5 * secondHalfSum "x" (trendRow [1, 1, 1, 5, 5, 5]) <
          4 * firstHalfSum "x" (trendRow [1, 1, 1, 5, 5, 5]) then .decreasing
      else .stable) :=
  ⟨(trend_classification "x" (trendRow [0, 0, 0, 0, 0, 9])).1 (Or.inl (by decide)),
   (trend_classification "x" (trendRow [1, 1, 1, 5, 5, 5])).2.1 (by decide)⟩

/-! ## Tree-based adapter events (src/adapters/pi-coding-agent.ts
`entryToEvents` / `parseEvents`)

`parseEvents` is modelled from the already-JSON-parsed entry list
(malformed/invalid lines are skipped before this point in the source);
`sessionId` is the caller-resolved id. -/

/-- JS string truthiness on an optional field. -/
def strTruthy : Option String → Bool
  | some s => s ≠ ""
  | none => false

/-- The pi adapter's static `TOOL_NAME_MAP` with lower-case fallback. -/
def canonicalToolNamePi (raw : String) : String :=
  if raw = "read" then "file_read"
  else if raw = "write" then "file_write"
  else if raw = "edit" then "file_edit"
  else if raw = "bash" then "shell_exec"
  else if raw = "grep" then "file_search"
  else if raw = "find" then "file_search"
  else if raw = "ls" then "file_read"
  else raw.toLower

/-- src/adapters/pi-coding-agent.ts `entryToEvents`. -/
def entryToEvents (entry : PiEntry) (sessionId : String) : List NormalizedEvent :=
  let ts := entry.timestamp.getD 0
  if entry.type = "message" then
    if entry.role = some "user" ∧ strTruthy entry.content ∧ ¬strTruthy entry.toolName then
      [{ timestamp := ts, harness := .pi_coding_agent, type := .user_prompt,
         session_id := sessionId, message := entry.content }]
    else if entry.role = some "assistant" ∧ strTruthy entry.toolName then
      [{ timestamp := ts, harness := .pi_coding_agent, type := .tool_use,
         session_id := sessionId,
         tool_name := some (canonicalToolNamePi (entry.toolName.getD "")),
         tool_input := match entry.toolInput with
           | some l => if l.isEmpty then none else some l
           | none => none }]
    else if entry.role = some "user" ∧ strTruthy entry.toolName then
      let hasError : Bool := match entry.toolResult with
        | some (.obj fields) => fields.any (·.1 = "error")
        | _ => false
      let result : ToolResultInfo := {
        success := !hasError
        error := if hasError then
            match entry.toolResult with
            | some (.obj fields) => some (((fields.find? (·.1 = "error")).map (·.2)).getD "")
            | _ => none
          else none
        output := if hasError then none
          else match entry.content with
            | some s => some s
            | none => match entry.toolResult with
              | some (.str s) => some s
              | some (.obj fields) =>
                some (String.intercalate "," (fields.map (·.1)))
              | none => none }
      [{ timestamp := ts, harness := .pi_coding_agent, type := .tool_result,
         session_id := sessionId,
         tool_name := some (canonicalToolNamePi (entry.toolName.getD "")),
         tool_result := some result }]
    else []
  else if entry.type = "compaction" then
    [{ timestamp := ts, harness := .pi_coding_agent, type := .compaction,
       session_id := sessionId }]
  else []

/-- src/adapters/pi-coding-agent.ts `PiCodingAgentAdapter.parseEvents`:
linearize, then bracket the converted events with a synthesized
`session_start` at the first linear entry's timestamp and a synthesized
`session_end` at the last one's. -/
def piParseEvents (entries : List PiEntry) (sessionId : String) : List NormalizedEvent :=
  let linear := linearizeEntries entries
  let firstTs := (linear.head?.bind (·.timestamp)).getD 0
  let lastTs := ((linear.getLast?).bind (·.timestamp)).getD firstTs
  ({ timestamp := firstTs, harness := .pi_coding_agent, type := .session_start,
     session_id := sessionId } : NormalizedEvent) ::
  (linear.flatMap fun e => entryToEvents e sessionId) ++
  [{ timestamp := lastTs, harness := .pi_coding_agent, type := .session_end,
     session_id := sessionId }]

/-- Number of events of one type. -/
def countType (events : List NormalizedEvent) (t : NormalizedEventType) : Nat :=
  (events.filter (·.type = t)).length

theorem entryToEvents_no_boundary (entry : PiEntry) (sessionId : String) :
    ∀ e ∈ entryToEvents entry sessionId,
      e.type ≠ .session_start ∧ e.type ≠ .session_end := by
  intro e he
  simp only [entryToEvents] at he
  repeat' split at he
  all_goals simp_all

theorem countType_cons (e : NormalizedEvent) (l : List NormalizedEvent)
    (t : NormalizedEventType) :
    countType (e :: l) t = (if e.type = t then 1 else 0) + countType l t := by
  by_cases h : e.type = t
  · simp [countType, List.filter_cons, h]
    omega
  · simp [countType, List.filter_cons, h]

theorem countType_append (l1 l2 : List NormalizedEvent) (t : NormalizedEventType) :
    countType (l1 ++ l2) t = countType l1 t + countType l2 t := by
  simp [countType, List.filter_append]

theorem countType_zero (l : List NormalizedEvent) (t : NormalizedEventType)
    (h : ∀ e ∈ l, e.type ≠ t) : countType l t = 0 := by
  unfold countType
  rw [List.length_eq_zero, List.filter_eq_nil_iff]
  intro a ha
  simpa using h a ha

/-! ## Turn-based adapter (src/adapters/gemini-cli.ts)

The source has no per-turn timestamps; a base timestamp comes from the
session filename (or the current time), each turn (`Content`) is offset by
`index + 1` milliseconds, and `session_start`/`session_end` are
synthesized at the base timestamp and at `base + history.length + 1`. -/

/-- The gemini adapter's static `TOOL_NAME_MAP` with lower-case fallback. -/
def canonicalToolNameGemini (raw : String) : String :=
  if raw = "run_shell_command" then "shell_exec"
  else if raw = "write_file" then "file_write"
  else if raw = "replace" then "file_edit"
  else if raw = "read_file" then "file_read"
  else if raw = "list_directory" then "file_read"
  else if raw = "glob" then "file_search"
  else if raw = "search_file_content" then "file_search"
  else if raw = "grep_search" then "file_search"
  else if raw = "web_fetch" then "web_access"
  else if raw = "google_web_search" then "web_access"
  else if raw = "save_memory" then "memory"
  else if raw = "write_todos" then "planning"
  else if raw = "codebase_investigator" then "file_search"
  else if raw = "activate_skill" then "skill"
  else raw.toLower

structure GeminiResponse where
  name : Option String := none
  content : Option JsonLite := none
deriving DecidableEq, Repr

inductive GeminiPart
  | text (s : String)
  | functionCall (name : String) (args : List (String × String))
  | functionResponse (name : String) (response : GeminiResponse)
deriving DecidableEq, Repr

structure GeminiContent where
  role : String
  parts : Option (List GeminiPart) := none
deriving DecidableEq, Repr

/-- src/adapters/gemini-cli.ts `contentToEvents`: one event per function
invocation / function result part; plain text maps to `user_prompt` only
for the user role; model text is unmapped. -/
def contentToEvents (content : GeminiContent) (sessionId : String)
    (baseTimestamp : Nat) (_contentIndex : Nat) : List NormalizedEvent :=
  (content.parts.getD []).flatMap fun part =>
    match part with
    | .text _s =>
      if content.role = "user" then
        [{ timestamp := baseTimestamp, harness := .gemini_cli, type := .user_prompt,
           session_id := sessionId, message := some _s }]
      else []
    | .functionCall name args =>
      [{ timestamp := baseTimestamp, harness := .gemini_cli, type := .tool_use,
         session_id := sessionId, tool_name := some (canonicalToolNameGemini name),
         tool_input := if args.isEmpty then none else some args }]
    | .functionResponse name resp =>
      let hasError : Bool := match resp.content with
        | some (.obj fields) => fields.any (·.1 = "error")
        | _ => false
      [{ timestamp := baseTimestamp, harness := .gemini_cli, type := .tool_result,
         session_id := sessionId, tool_name := some (canonicalToolNameGemini name),
         tool_result := some {
           success := !hasError
           error := if hasError then
               match resp.content with
               | some (.obj fields) => some (((fields.find? (·.1 = "error")).map (·.2)).getD "")
               | _ => none
             else none
           output := if hasError then none
             else match resp.content with
               | some (.str s) => some s
               | some (.obj fields) => some (String.intercalate "," (fields.map (·.1)))
               | none => none } }]

/-- The body of the `for (let i = 0; …)` loop of `parseHistory` at index
`i`: skip invalid items and items without a role or a parts array,
otherwise convert at the synthetic per-turn timestamp `ts + i + 1`. -/
def geminiTurnEvents (history : List (Option GeminiContent)) (sessionId : String)
    (ts i : Nat) : List NormalizedEvent :=
  match history.getD i none with
  | none => []
  | some content =>
    if content.role = "" ∨ content.parts = none then []
    else contentToEvents content sessionId (ts + i + 1) i

/-- src/adapters/gemini-cli.ts `GeminiCliAdapter.parseHistory`. -/
def geminiParseHistory (history : List (Option GeminiContent)) (sessionId : String)
    (ts : Nat) : List NormalizedEvent :=
  ({ timestamp := ts, harness := .gemini_cli, type := .session_start,
     session_id := sessionId } : NormalizedEvent) ::
  ((List.range history.length).flatMap fun i => geminiTurnEvents history sessionId ts i) ++
  [{ timestamp := ts + history.length + 1, harness := .gemini_cli, type := .session_end,
     session_id := sessionId }]

theorem contentToEvents_timestamp (content : GeminiContent) (sessionId : String)
    (t i : Nat) : ∀ e ∈ contentToEvents content sessionId t i, e.timestamp = t := by
  intro e he
  simp only [contentToEvents, List.mem_flatMap] at he
  obtain ⟨part, -, he⟩ := he
  cases part with
  | text s =>
    split at he <;> simp_all
  | functionCall name args => simp_all
  | functionResponse name resp => simp_all

theorem contentToEvents_no_boundary (content : GeminiContent) (sessionId : String)
    (t i : Nat) : ∀ e ∈ contentToEvents content sessionId t i,
      e.type ≠ .session_start ∧ e.type ≠ .session_end := by
  intro e he
  simp only [contentToEvents, List.mem_flatMap] at he
  obtain ⟨part, -, he⟩ := he
  cases part with
  | text s =>
    split at he <;> simp_all
  | functionCall name args => simp_all
  | functionResponse name resp => simp_all

theorem geminiTurnEvents_timestamp (history : List (Option GeminiContent))
    (sessionId : String) (ts i : Nat) :
    ∀ e ∈ geminiTurnEvents history sessionId ts i, e.timestamp = ts + i + 1 := by
  intro e he
  simp only [geminiTurnEvents] at he
  split at he
  · cases he
  · split at he
    · cases he
    · exact contentToEvents_timestamp _ _ _ _ e he

theorem geminiTurnEvents_no_boundary (history : List (Option GeminiContent))
    (sessionId : String) (ts i : Nat) :
    ∀ e ∈ geminiTurnEvents history sessionId ts i,
      e.type ≠ .session_start ∧ e.type ≠ .session_end := by
  intro e he
  simp only [geminiTurnEvents] at he
  split at he
  · cases he
  · split at he
    · cases he
    · exact contentToEvents_no_boundary _ _ _ _ e he

/-! ## Flat-hook adapter (src/adapters/claude-code.ts)

Raw hook events carry a JSON payload; payload values are modelled by
`PVal` (strings, booleans, and one level of objects; deeper values are
opaque).  `parseEvents` is modelled from the already-line-parsed input:
`none` entries stand for malformed/invalid lines, which the source skips
with a warning. -/

inductive PVal
  | pstr (s : String)
  | pbool (b : Bool)
  | pobj (fields : List (String × PVal))

/-- JS `payload[key]`. -/
def pLookup (payload : List (String × PVal)) (key : String) : Option PVal :=
  (payload.find? (·.1 = key)).map (·.2)

/-- Opaque stand-in for serializing a payload value into a string field. -/
def pSerialize : PVal → String
  | .pstr s => s
  | .pbool b => toString b
  | .pobj _ => "[object]"

structure ClaudeCodeRawEvent where
  session_id : String
  hook_event_type : String
  timestamp : Nat
  payload : Option (List (String × PVal)) := none
  source_app : Option String := none

/-- The claude-code adapter's static `TOOL_NAME_MAP` with lower-case
fallback. -/
def canonicalToolNameClaude (raw : String) : String :=
  if raw = "Edit" then "file_edit"
  else if raw = "MultiEdit" then "file_edit"
  else if raw = "Write" then "file_write"
  else if raw = "Read" then "file_read"
  else if raw = "Bash" then "shell_exec"
  else if raw = "Grep" then "file_search"
  else if raw = "Glob" then "file_search"
  else if raw = "Task" then "agent_spawn"
  else if raw = "WebSearch" then "web_access"
  else if raw = "WebFetch" then "web_access"
  else if raw = "NotebookEdit" then "file_edit"
  else if raw = "NotebookRead" then "file_read"
  else if raw = "LSP" then "lsp"
  else if raw = "AskUserQuestion" then "user_interaction"
  else if raw = "Skill" then "skill"
  else raw.toLower

/-- src/adapters/claude-code.ts `mapHookType`: the static `HOOK_TYPE_MAP`
with the dynamic `Notification` branch (only `compaction` notifications
are mapped; generic notifications are dropped). -/
def mapHookType (hookType : String) (payload : Option (List (String × PVal))) :
    Option NormalizedEventType :=
  if hookType = "Notification" then
    match payload.bind (pLookup · "type") with
    | some (.pstr "compaction") => some .compaction
    | _ => none
  else if hookType = "PreToolUse" then some .tool_use
  else if hookType = "PostToolUse" then some .tool_result
  else if hookType = "UserPromptSubmit" then some .user_prompt
  else if hookType = "SessionStart" then some .session_start
  else if hookType = "SessionEnd" then some .session_end
  else if hookType = "Stop" then some .session_end
  else if hookType = "SubagentStop" then some .session_end
  else none

/-- A payload value read as a truthy string (`payload[k] as string` plus a
JS truthiness check). -/
def truthyStr : Option PVal → Option String
  | some (.pstr s) => if s = "" then none else some s
  | _ => none

/-- A payload value read as an object (objects are always truthy). -/
def objVal : Option PVal → Option (List (String × PVal))
  | some (.pobj fields) => some fields
  | _ => none

def extractToolName (e : ClaudeCodeRawEvent) : Option String :=
  match e.payload with
  | none => none
  | some p =>
    match truthyStr (pLookup p "tool_name") with
    | some s => some s
    | none => truthyStr (pLookup p "name")

def extractToolInput (e : ClaudeCodeRawEvent) : Option (List (String × PVal)) :=
  match e.payload with
  | none => none
  | some p =>
    match objVal (pLookup p "tool_input") with
    | some fields => some fields
    | none => objVal (pLookup p "input")

def extractToolResult (e : ClaudeCodeRawEvent) : Option ToolResultInfo :=
  let fromPayload : Option ToolResultInfo :=
    match e.payload with
    | none => none
    | some p =>
      match pLookup p "tool_result" with
      | some (.pobj r) =>
        some {
          success :=
            (match pLookup r "success" with
              | some (.pbool false) => false
              | _ => true) &&
            (pLookup r "error").isNone
          output := match pLookup r "output" with
            | some (.pstr s) => some s
            | _ => none
          error := match pLookup r "error" with
            | some (.pstr s) => some s
            | _ => none }
      | _ =>
        match truthyStr (pLookup p "error") with
        | some err => some { success := false, error := some err }
        | none => none
  match fromPayload with
  | some r => some r
  | none =>
    if e.hook_event_type = "PostToolUse" then some { success := true } else none

def extractMessage (e : ClaudeCodeRawEvent) : Option String :=
  match e.payload with
  | none => none
  | some p =>
    match truthyStr (pLookup p "message") with
    | some m => some m
    | none => truthyStr (pLookup p "prompt")

def extractCwd (e : ClaudeCodeRawEvent) : Option String :=
  match e.payload with
  | none => none
  | some p =>
    match pLookup p "cwd" with
    | some (.pstr s) => some s
    | _ => none

/-- src/adapters/claude-code.ts `rawToNormalized`. -/
def rawToNormalized (raw : ClaudeCodeRawEvent) : Option NormalizedEvent :=
  match mapHookType raw.hook_event_type raw.payload with
  | none => none
  | some eventType =>
    some {
      timestamp := raw.timestamp
      harness := .claude_code
      type := eventType
      session_id := raw.session_id
      tool_name := (extractToolName raw).map canonicalToolNameClaude
      tool_input := (extractToolInput raw).map fun fields =>
        fields.map fun kv => (kv.1, pSerialize kv.2)
      tool_result := extractToolResult raw
      message := extractMessage raw
      cwd := extractCwd raw }

/-- src/adapters/claude-code.ts `ClaudeCodeAdapter.parseEvents`: map each
valid line through `rawToNormalized`, dropping lines the mapping rejects.
No boundary events are synthesized. -/
def claudeParseEvents (lines : List (Option ClaudeCodeRawEvent)) : List NormalizedEvent :=
  lines.flatMap fun line =>
    match line with
    | none => []
    | some raw =>
      match rawToNormalized raw with
      | none => []
      | some ev => [ev]

/-- A valid flat-hook line that is only a user prompt: the session has
events but no boundary markers. -/
def claudeCexRaw : ClaudeCodeRawEvent :=
  { session_id := "s", hook_event_type := "UserPromptSubmit", timestamp := 5,
    payload := some [("prompt", .pstr "hello")] }

/-- C1 counterexample: the flat-hook adapter does not synthesize
boundaries — parsing a session consisting of one `UserPromptSubmit` hook
event yields a non-empty event list with zero `session_start` and zero
`session_end` events, so the claim's "exactly one of each for every
adapter" fails. -/
theorem flat_hook_no_boundary_synthesis :
    claudeParseEvents [some claudeCexRaw] ≠ [] ∧
    countType (claudeParseEvents [some claudeCexRaw]) .session_start = 0 ∧
    countType (claudeParseEvents [some claudeCexRaw]) .session_end = 0 ∧
    countType (claudeParseEvents [some claudeCexRaw]) .user_prompt = 1 :=
  ⟨by decide, by decide, by decide, by decide⟩

/-- C1 (amended): the tree-based and turn-based adapters synthesize
exactly one `session_start` (the first event) and exactly one
`session_end` (the last event), positionally bracketing all other events;
the flat-hook adapter only maps boundary markers present in its raw input
(no synthesis), so its sessions can lack them. -/
theorem session_boundaries_synthesized (entries : List PiEntry)
    (history : List (Option GeminiContent)) (sid : String) (ts : Nat) :
    countType (piParseEvents entries sid) .session_start = 1 ∧
    countType (piParseEvents entries sid) .session_end = 1 ∧
    (piParseEvents entries sid).head?.map (·.type) = some .session_start ∧
    (piParseEvents entries sid).getLast?.map (·.type) = some .session_end ∧
    countType (geminiParseHistory history sid ts) .session_start = 1 ∧
    countType (geminiParseHistory history sid ts) .session_end = 1 ∧
    (geminiParseHistory history sid ts).head?.map (·.type) = some .session_start ∧
    (geminiParseHistory history sid ts).getLast?.map (·.type) = some .session_end := by
  have hpiMid : ∀ e ∈ ((linearizeEntries entries).flatMap fun en => entryToEvents en sid),
      e.type ≠ NormalizedEventType.session_start ∧
      e.type ≠ NormalizedEventType.session_end := by
    intro e he
    rw [List.mem_flatMap] at he
    obtain ⟨en, -, he⟩ := he
    exact entryToEvents_no_boundary en sid e he
  have hgMid : ∀ e ∈ ((List.range history.length).flatMap
        fun i => geminiTurnEvents history sid ts i),
      e.type ≠ NormalizedEventType.session_start ∧
      e.type ≠ NormalizedEventType.session_end := by
    intro e he
    rw [List.mem_flatMap] at he
    obtain ⟨i, -, he⟩ := he
    exact geminiTurnEvents_no_boundary history sid ts i e he
  refine ⟨?_, ?_, rfl, ?_, ?_, ?_, rfl, ?_⟩
  · simp only [piParseEvents]
    rw [countType_append, countType_cons,
      countType_zero _ _ (fun e he => (hpiMid e he).1)]
    simp [countType]
  · simp only [piParseEvents]
    rw [countType_append, countType_cons,
      countType_zero _ _ (fun e he => (hpiMid e he).2)]
    simp [countType]
  · simp only [piParseEvents]
    rw [List.getLast?_concat]
    rfl
  · simp only [geminiParseHistory]
    rw [countType_append, countType_cons,
      countType_zero _ _ (fun e he => (hgMid e he).1)]
    simp [countType]
  · simp only [geminiParseHistory]
    rw [countType_append, countType_cons,
      countType_zero _ _ (fun e he => (hgMid e he).2)]
    simp [countType]
  · simp only [geminiParseHistory]
    rw [List.getLast?_concat]
    rfl

/-- C9 (amended): the turn-based adapter synthesizes `session_start` at
the base timestamp (first event) and `session_end` after all turns (last
event, at base + #turns + 1 ms); every turn-internal event carries the
synthetic timestamp `base + turnIndex + 1`, so events of distinct turns
are strictly ordered by turn position — while events within one turn
share their turn's timestamp (see the counterexample). -/
theorem gemini_turn_timestamp_schedule (history : List (Option GeminiContent))
    (sid : String) (ts : Nat) :
    (geminiParseHistory history sid ts).head?.map (·.timestamp) = some ts ∧
    (geminiParseHistory history sid ts).head?.map (·.type) = some .session_start ∧
    (geminiParseHistory history sid ts).getLast?.map (·.timestamp) =
      some (ts + history.length + 1) ∧
    (geminiParseHistory history sid ts).getLast?.map (·.type) = some .session_end ∧
    (∀ i, ∀ e ∈ geminiTurnEvents history sid ts i, e.timestamp = ts + i + 1) ∧
    (∀ i j e f, i < j → e ∈ geminiTurnEvents history sid ts i →
      f ∈ geminiTurnEvents history sid ts j → e.timestamp < f.timestamp) := by
  have hlast : (geminiParseHistory history sid ts).getLast? =
      some { timestamp := ts + history.length + 1, harness := .gemini_cli,
             type := .session_end, session_id := sid } := by
    simp only [geminiParseHistory]
    rw [List.getLast?_concat]
  refine ⟨rfl, rfl, ?_, ?_, geminiTurnEvents_timestamp history sid ts, ?_⟩
  · rw [hlast]
    rfl
  · rw [hlast]
    rfl
  · intro i j e f hij he hf
    rw [geminiTurnEvents_timestamp history sid ts i e he,
      geminiTurnEvents_timestamp history sid ts j f hf]
    omega

/-- A single turn containing two tool calls. -/
def geminiSameTurnExample : List (Option GeminiContent) :=
  [some { role := "model",
          parts := some [.functionCall "run_shell_command" [("command", "a")],
                         .functionCall "run_shell_command" [("command", "b")]] }]

/-- C9 counterexample: two distinct tool-use events inside the same turn
receive the same synthetic timestamp (the offset is per turn, not per
event), so the timestamps of two distinct turn-internal events are not
strictly ordered by their source position. -/
theorem gemini_same_turn_equal_timestamps :
    ((geminiParseHistory geminiSameTurnExample "s" 0).map (·.timestamp)) = [0, 1, 1, 2] ∧
    ((geminiParseHistory geminiSameTurnExample "s" 0).map (·.type)) =
      [.session_start, .tool_use, .tool_use, .session_end] ∧
    (geminiParseHistory geminiSameTurnExample "s" 0).getD 1 default ≠
      (geminiParseHistory geminiSameTurnExample "s" 0).getD 2 default ∧
    ¬(((geminiParseHistory geminiSameTurnExample "s" 0).getD 1 default).timestamp <
      ((geminiParseHistory geminiSameTurnExample "s" 0).getD 2 default).timestamp) :=
  ⟨by decide, by decide, by decide, by decide⟩

/-- Two turns with one tool call each. -/
def geminiTwoTurnExample : List (Option GeminiContent) :=
  [some { role := "model", parts := some [.functionCall "run_shell_command" [("command", "a")]] },
   some { role := "model", parts := some [.functionCall "read_file" [("path", "x")]] }]

/-- Witness for C9 (amended): across two distinct turns the timestamps are
strictly ordered. -/
theorem gemini_turn_timestamp_schedule_witness :
    ((geminiParseHistory geminiTwoTurnExample "s" 0).getD 1 default).timestamp <
      ((geminiParseHistory geminiTwoTurnExample "s" 0).getD 2 default).timestamp :=
  (gemini_turn_timestamp_schedule geminiTwoTurnExample "s" 0).2.2.2.2.2
    0 1 ((geminiParseHistory geminiTwoTurnExample "s" 0).getD 1 default)
    ((geminiParseHistory geminiTwoTurnExample "s" 0).getD 2 default)
    (by omega) (by decide) (by decide)

/-! ## Patterns and the issue-filing action (src/actions/beads.ts)

`Pattern` carries the analyzer output consumed by the action engine.  The
issue-tracker CLI is external: the per-pattern step is modelled as a pure
function of the search output the CLI returned.  Regexes of
`findExistingIssue` are modelled as character-list parsers; JS `\w` is
ASCII alphanumeric or underscore. -/

structure Pattern where
  id : String
  type : String
  scope : String
  description : String
  severity : Severity
  frequency : Nat
  trend : PatternTrend
  root_cause_hypothesis : Option String := none
  suggested_fix : Option String := none
  auto_fixable : Bool
  fix_scope : String := ""
  affected_files : List String := []
deriving DecidableEq, Repr

/-- `SEVERITY_RANK`. -/
def severityRank : Severity → Nat
  | .low => 1
  | .medium => 2
  | .high => 3

/-- src/actions/beads.ts `BeadsActionConfig` (the source names the last
field `title_prefix`). -/
structure BeadsActionConfig where
  enabled : Bool
  min_severity : Severity
  min_frequency : Nat
  titlePrefix : String
deriving DecidableEq, Repr

/-- src/actions/beads.ts `meetsThreshold`. -/
def meetsThreshold (pattern : Pattern) (config : BeadsActionConfig) : Bool :=
  severityRank pattern.severity ≥ severityRank config.min_severity &&
  pattern.frequency ≥ config.min_frequency

/-- src/actions/beads.ts `mapPriority`. -/
def mapPriority : Severity → Nat
  | .high => 1
  | .medium => 2
  | .low => 3

/-- src/actions/beads.ts `buildIssueTitle`. -/
def buildIssueTitle (pattern : Pattern) (pre : String) : String :=
  if pre = "" then pattern.description else pre ++ " " ++ pattern.description

/-- JS `\w`: ASCII letter, digit or underscore. -/
def isWordChar (c : Char) : Bool := c.isAlphanum || c = '_'

/-- JS `"…".split("\n")`. -/
def splitLines : List Char → List (List Char)
  | [] => [[]]
  | c :: rest =>
    if c = '\n' then [] :: splitLines rest
    else match splitLines rest with
      | [] => [[c]]
      | l :: ls => (c :: l) :: ls

/-- JS `String.prototype.trim`. -/
def trimChars (l : List Char) : List Char :=
  ((l.dropWhile (·.isWhitespace)).reverse.dropWhile (·.isWhitespace)).reverse

/-- JS `String.prototype.trimEnd`. -/
def trimEndChars (l : List Char) : List Char :=
  (l.reverse.dropWhile (·.isWhitespace)).reverse

/-- The anchored regex `/^(\w+-\d+)/`: a maximal run of word characters,
a dash, then a maximal run of digits (each nonempty); returns the
captured issue id and the remaining characters. -/
def parseIssueId (cs : List Char) : Option (String × List Char) :=
  let word := cs.takeWhile isWordChar
  let rest := cs.dropWhile isWordChar
  if word.isEmpty then none
  else match rest with
    | '-' :: rest2 =>
      let digits := rest2.takeWhile (·.isDigit)
      let rest3 := rest2.dropWhile (·.isDigit)
      if digits.isEmpty then none
      else some (String.mk (word ++ '-' :: digits), rest3)
    | _ => none

/-- Case-insensitive keyword at the start followed by a word boundary
(`/^word\b/i` for a lower-case `word`). -/
def matchKeywordCI (w : String) (l : List Char) : Bool :=
  ((l.take w.length).map (·.toLower) == w.data) &&
  (match l.drop w.length with
   | [] => true
   | c :: _ => !isWordChar c)

/-- `/^[a-z_]+\b\s+/i` stripping for bracketed titles: a maximal run of
letters/underscores followed by a boundary and at least one whitespace
character; no match leaves the line unchanged. -/
def stripStatusBracket (l : List Char) : List Char :=
  let run := l.takeWhile fun c => c.isAlpha || c = '_'
  let rest := l.dropWhile fun c => c.isAlpha || c = '_'
  if run.isEmpty then l
  else match rest with
    | [] => l
    | c :: _ =>
      if isWordChar c then l
      else if (rest.takeWhile (·.isWhitespace)).isEmpty then l
      else rest.dropWhile (·.isWhitespace)

/-- The known status words, in the source's alternation order. -/
def statusWords : List String :=
  ["open", "in_progress", "pending", "active", "new", "backlog", "todo",
   "blocked", "wontfix", "resolved"]

/-- `/^(open|in_progress|…)\b\s*/i` stripping for unbracketed titles. -/
def stripStatusKnown (l : List Char) : List Char :=
  match statusWords.find? (fun w => matchKeywordCI w l) with
  | some w => (l.drop w.length).dropWhile (·.isWhitespace)
  | none => l

/-- The title comparison of `findExistingIssue`: exact equality, equality
up to trailing whitespace, or the title as a full leading column
terminated by a tab or a double space. -/
def titleMatchesAt (rest : List Char) (title : List Char) : Bool :=
  rest == title || trimEndChars rest == title ||
  (title.isPrefixOf rest &&
    (match rest.drop title.length with
     | [] => true
     | '\t' :: _ => true
     | ' ' :: ' ' :: _ => true
     | _ => false))

/-- Processing of one candidate line of `bd search` output inside the
`for` loop of `findExistingIssue`. -/
def lineMatch (line : List Char) (title : List Char) : Option String :=
  match parseIssueId line with
  | none => none
  | some (id, afterId) =>
    let rest := trimChars afterId
    if matchKeywordCI "closed" rest then none
    else
      let rest2 := if title.head? = some '[' then stripStatusBracket rest
        else stripStatusKnown rest
      if titleMatchesAt rest2 title then some id else none

/-- src/actions/beads.ts `findExistingIssue`: first non-blank line whose
issue id parses, whose status is not closed, and whose title column
matches the built title exactly. -/
def findExistingIssue (searchOutput : String) (title : String) : Option String :=
  ((splitLines searchOutput.data).filter fun l => !(trimChars l).isEmpty).findSome?
    fun line => lineMatch line title.data

/-- The decision taken for one pattern by `executeBeadsAction`'s loop
(after the availability check), given the search output the CLI returned
for the pattern's description. -/
inductive BeadsOutcome
  | skippedThreshold
  | updated (id : String)
  | created (title : String) (priority : Nat)
deriving DecidableEq, Repr

/-- The per-pattern body of src/actions/beads.ts `executeBeadsAction`:
below-threshold patterns are skipped; on a duplicate match a trend
comment is appended to the existing issue; otherwise a new issue is
created. -/
def beadsPatternStep (pattern : Pattern) (config : BeadsActionConfig)
    (searchOutput : String) : BeadsOutcome :=
  let title := buildIssueTitle pattern config.titlePrefix
  if ¬meetsThreshold pattern config then .skippedThreshold
  else match findExistingIssue searchOutput title with
    | some id => .updated id
    | none => .created title (mapPriority pattern.severity)

/-- C4: a duplicate is reported only for a non-blank line whose parsed
issue id is the returned id, whose status is not `closed`, and whose
title column (after tolerating a single status word, with the bracketed
title-prefix convention) matches the built title exactly; and on a match
the action appends a trend comment (`updated`) instead of creating. -/
theorem beads_duplicate_exact_match (searchOutput : String) (title : String)
    (id : String) (pattern : Pattern) (config : BeadsActionConfig) :
    (findExistingIssue searchOutput title = some id →
      ∃ line ∈ (splitLines searchOutput.data).filter (fun l => !(trimChars l).isEmpty),
        ∃ rem, parseIssueId line = some (id, rem) ∧
          matchKeywordCI "closed" (trimChars rem) = false ∧
          titleMatchesAt
            (if title.data.head? = some '[' then stripStatusBracket (trimChars rem)
             else stripStatusKnown (trimChars rem)) title.data = true) ∧
    (meetsThreshold pattern config = true →
      findExistingIssue searchOutput (buildIssueTitle pattern config.titlePrefix) = some id →
      beadsPatternStep pattern config searchOutput = .updated id) := by
  constructor
  · intro h
    obtain ⟨line, hline, hmatch⟩ := List.exists_of_findSome?_eq_some h
    refine ⟨line, hline, ?_⟩
    simp only [lineMatch] at hmatch
    split at hmatch
    · cases hmatch
    · next id' rem heq =>
      rcases hclosed : matchKeywordCI "closed" (trimChars rem) with _ | _
      · rw [hclosed] at hmatch
        simp only [Bool.false_eq_true, if_false] at hmatch
        by_cases hb : title.data.head? = some '['
        · rw [if_pos hb] at hmatch
          split at hmatch
          · next htm =>
            cases Option.some.inj hmatch
            exact ⟨rem, heq, hclosed, by rw [if_pos hb]; exact htm⟩
          · cases hmatch
        · rw [if_neg hb] at hmatch
          split at hmatch
          · next htm =>
            cases Option.some.inj hmatch
            exact ⟨rem, heq, hclosed, by rw [if_neg hb]; exact htm⟩
          · cases hmatch
      · rw [hclosed] at hmatch
        simp at hmatch
  · intro hth hfind
    simp only [beadsPatternStep, hth, hfind]
    simp

def beadsExampleOutput : String :=
  "SS-1  closed  [signals] Shell failures\nSS-2  [signals] Shell failures"

def beadsExamplePattern : Pattern :=
  { id := "pat-1", type := "recurring_friction", scope := "pai",
    description := "Shell failures", severity := .high, frequency := 3,
    trend := .stable, auto_fixable := false }

def beadsExampleConfig : BeadsActionConfig :=
  { enabled := true, min_severity := .low, min_frequency := 1,
    titlePrefix := "[signals]" }

/-- Witness for C4: the closed `SS-1` line is skipped and the open `SS-2`
line with the exact title matches, so the action appends a comment. -/
theorem beads_duplicate_exact_match_witness :
    (∃ line ∈ (splitLines beadsExampleOutput.data).filter
        (fun l => !(trimChars l).isEmpty),
      ∃ rem, parseIssueId line = some ("SS-2", rem) ∧
        matchKeywordCI "closed" (trimChars rem) = false ∧
        titleMatchesAt
          (if ("[signals] Shell failures" : String).data.head? = some '[' then
            stripStatusBracket (trimChars rem)
          else stripStatusKnown (trimChars rem))
          ("[signals] Shell failures" : String).data = true) ∧
    beadsPatternStep beadsExamplePattern beadsExampleConfig beadsExampleOutput =
      .updated "SS-2" :=
  ⟨(beads_duplicate_exact_match beadsExampleOutput "[signals] Shell failures" "SS-2"
      beadsExamplePattern beadsExampleConfig).1 (by decide),
   (beads_duplicate_exact_match beadsExampleOutput "[signals] Shell failures" "SS-2"
      beadsExamplePattern beadsExampleConfig).2 (by decide) (by decide)⟩

/-! ## Auto-fix action (src/actions/autofix.ts)

Git and the spawned agent are external processes; each pattern attempt is
modelled as a pure step over an explicit state (known branches, current
branch, fix counter, results, and a git-effect trace) driven by an oracle
giving the outcome of each external call.  The run-level preconditions
(clean working tree, agent availability) short-circuit the whole run in
the source and are outside these claims.  `deleteBranch` failures are
swallowed by the source (`.catch(() => {})`); deletion is modelled as
effective. -/

/-- src/actions/autofix.ts `AutofixActionConfig` (the source names the
branch-name field `branch_prefix`). -/
structure AutofixActionConfig where
  enabled : Bool
  min_severity : Severity
  min_frequency : Nat
  branchPrefix : String
  branch_ttl_days : Nat
  allowed_tools : List String := []
deriving DecidableEq, Repr

/-- src/actions/autofix.ts `meetsAutoFixThreshold`. -/
def meetsAutoFixThreshold (pattern : Pattern) (config : AutofixActionConfig) : Bool :=
  pattern.auto_fixable &&
  severityRank pattern.severity ≥ severityRank config.min_severity &&
  pattern.frequency ≥ config.min_frequency

/-- src/actions/autofix.ts `buildBranchName`. -/
def buildBranchName (pattern : Pattern) (pre : String) : String :=
  pre ++ pattern.id

inductive ActionTag
  | fixed
  | skipped
deriving DecidableEq, Repr

structure AutofixResult where
  pattern_id : String
  action : ActionTag
  branch : Option String := none
  reason : Option String := none
deriving DecidableEq, Repr

/-- Outcomes of the external calls made while processing one pattern:
`hasCommitsResult = none` means the `hasNewCommits` call threw (the
source catches this and assumes commits exist to preserve work). -/
structure AutofixOracle where
  createOk : Bool
  agentSucceeds : Bool
  hasCommitsResult : Option Bool
  checkoutOk : Bool
deriving DecidableEq, Repr

inductive GitEffect
  | created (branch : String)
  | agentRun (branch : String)
  | checkedOut (branch : String)
  | deleted (branch : String)
deriving DecidableEq, Repr

structure AutofixState where
  branches : List String
  current : String
  fixCount : Nat
  results : List AutofixResult
  trace : List GitEffect
deriving DecidableEq, Repr

/-- The per-pattern body of src/actions/autofix.ts `executeAutofixAction`:
threshold gate, run cap, existing-branch skip, branch creation, agent
invocation, and the commit-preservation failure handling. -/
def autofixStep (config : AutofixActionConfig) (originalBranch : String)
    (maxPerRun : Nat) (st : AutofixState) (p : Pattern) (o : AutofixOracle) :
    AutofixState :=
  if ¬meetsAutoFixThreshold p config then
    { st with results := st.results ++
        [{ pattern_id := p.id, action := .skipped, reason := some "Below threshold" }] }
  else if st.fixCount ≥ maxPerRun then
    { st with results := st.results ++
        [{ pattern_id := p.id, action := .skipped, reason := some "Run limit reached" }] }
  else
    let branchName := buildBranchName p config.branchPrefix
    if branchName ∈ st.branches then
      { st with results := st.results ++
          [{ pattern_id := p.id, action := .skipped, branch := some branchName,
             reason := some "Branch already exists (previously attempted)" }] }
    else if ¬o.createOk then
      -- outer catch: branch creation threw; report and try to return
      { st with
        current := if o.checkoutOk then originalBranch else st.current,
        trace := st.trace ++ (if o.checkoutOk then [.checkedOut originalBranch] else []),
        results := st.results ++
          [{ pattern_id := p.id, action := .skipped, reason := some "Git error" }] }
    else
      let st1 : AutofixState :=
        { st with
          branches := st.branches ++ [branchName]
          current := branchName
          trace := st.trace ++ [.created branchName] }
      if o.agentSucceeds then
        let st2 : AutofixState :=
          { st1 with
            fixCount := st1.fixCount + 1
            trace := st1.trace ++ [.agentRun branchName]
            results := st1.results ++
              [{ pattern_id := p.id, action := .fixed, branch := some branchName }] }
        if o.checkoutOk then
          { st2 with
            current := originalBranch
            trace := st2.trace ++ [.checkedOut originalBranch] }
        else
          -- outer catch after the fixed result: extra Git-error result
          { st2 with results := st2.results ++
              [{ pattern_id := p.id, action := .skipped, reason := some "Git error" }] }
      else
        -- inner catch: the agent failed
        let st2 : AutofixState := { st1 with trace := st1.trace ++ [.agentRun branchName] }
        let hasCommits := o.hasCommitsResult.getD true
        let st3 : AutofixState :=
          if o.checkoutOk then
            { st2 with
              current := originalBranch
              trace := st2.trace ++ [.checkedOut originalBranch] }
          else st2
        if !hasCommits && o.checkoutOk then
          { st3 with
            branches := st3.branches.erase branchName
            trace := st3.trace ++ [.deleted branchName]
            results := st3.results ++
              [{ pattern_id := p.id, action := .skipped,
                 reason := some "Agent failed; branch deleted (no commits)" }] }
        else if hasCommits then
          { st3 with results := st3.results ++
              [{ pattern_id := p.id, action := .skipped, branch := some branchName,
                 reason := some "Agent failed; branch retained (has partial commits)" }] }
        else
          { st3 with results := st3.results ++
              [{ pattern_id := p.id, action := .skipped, branch := some branchName,
                 reason := some "Agent failed; branch retained (checkout failed)" }] }

/-- src/actions/autofix.ts `executeAutofixAction` as a fold of the
per-pattern step (run cap `maxPerRun` defaults to 3). -/
def executeAutofixAction (patterns : List (Pattern × AutofixOracle))
    (config : AutofixActionConfig) (initial : AutofixState)
    (originalBranch : String) (maxPerRun : Nat := 3) : AutofixState :=
  if ¬config.enabled then initial
  else patterns.foldl
    (fun st po => autofixStep config originalBranch maxPerRun st po.1 po.2) initial

/-- C6: a pattern failing the gate (`auto_fixable` and the severity and
frequency floors) only appends a skip result — it never creates a branch,
runs nothing, and does not consume the per-run cap; and the cap (fix
counter) moves only for patterns that pass the gate and fit under the
cap. -/
theorem autofix_gate_and_cap (config : AutofixActionConfig) (originalBranch : String)
    (maxPerRun : Nat) (st : AutofixState) (p : Pattern) (o : AutofixOracle) :
    (meetsAutoFixThreshold p config = false →
      autofixStep config originalBranch maxPerRun st p o =
        { st with results := st.results ++
            [{ pattern_id := p.id, action := .skipped,
               reason := some "Below threshold" }] }) ∧
    (p.auto_fixable = false →
      (autofixStep config originalBranch maxPerRun st p o).branches = st.branches ∧
      (autofixStep config originalBranch maxPerRun st p o).trace = st.trace ∧
      (autofixStep config originalBranch maxPerRun st p o).fixCount = st.fixCount) ∧
    ((autofixStep config originalBranch maxPerRun st p o).fixCount ≠ st.fixCount →
      meetsAutoFixThreshold p config = true ∧ st.fixCount < maxPerRun) := by
  refine ⟨?_, ?_, ?_⟩
  · intro h
    simp [autofixStep, h]
  · intro h
    have hm : meetsAutoFixThreshold p config = false := by
      simp [meetsAutoFixThreshold, h]
    simp [autofixStep, hm]
  · intro hne
    by_cases h1 : meetsAutoFixThreshold p config = true
    · by_cases h2 : st.fixCount < maxPerRun
      · exact ⟨h1, h2⟩
      · exfalso
        apply hne
        simp [autofixStep, h1, not_lt.mp h2]
    · exfalso
      apply hne
      simp [autofixStep, h1]

def autofixExampleConfig : AutofixActionConfig :=
  { enabled := true, min_severity := .low, min_frequency := 1,
    branchPrefix := "autofix/", branch_ttl_days := 7 }

/-- A pattern that meets the severity and frequency floors but is not
auto-fixable. -/
def autofixGatedPattern : Pattern :=
  { id := "pat-9", type := "recurring_friction", scope := "pai",
    description := "flaky shell", severity := .high, frequency := 5,
    trend := .increasing, auto_fixable := false }

def autofixInitState : AutofixState :=
  { branches := ["main"], current := "main", fixCount := 0, results := [], trace := [] }

def autofixHappyOracle : AutofixOracle :=
  { createOk := true, agentSucceeds := true, hasCommitsResult := some true,
    checkoutOk := true }

/-- Witness for C6: an `auto_fixable = false` pattern with passing
severity/frequency creates no branch and leaves the cap untouched. -/
theorem autofix_gate_and_cap_witness :
    (autofixStep autofixExampleConfig "main" 3 autofixInitState autofixGatedPattern
      autofixHappyOracle).branches = autofixInitState.branches ∧
    (autofixStep autofixExampleConfig "main" 3 autofixInitState autofixGatedPattern
      autofixHappyOracle).trace = autofixInitState.trace ∧
    (autofixStep autofixExampleConfig "main" 3 autofixInitState autofixGatedPattern
      autofixHappyOracle).fixCount = autofixInitState.fixCount :=
  (autofix_gate_and_cap autofixExampleConfig "main" 3 autofixInitState
    autofixGatedPattern autofixHappyOracle).2.1 (by decide)

/-- C5: when the spawned agent fails after the fix branch was created, the
step checks for commits on the new branch relative to the original: with
none (and a successful return to the original branch) the branch is
deleted after the checkout (clean rollback); with commits — or when the
commit check itself fails, or the checkout back fails — the branch is
retained and reported, and no deletion ever happens. -/
theorem autofix_agent_failure_preserves_commits (config : AutofixActionConfig)
    (originalBranch : String) (maxPerRun : Nat) (st : AutofixState) (p : Pattern)
    (o : AutofixOracle)
    (hmeets : meetsAutoFixThreshold p config = true)
    (hcap : st.fixCount < maxPerRun)
    (hnew : buildBranchName p config.branchPrefix ∉ st.branches)
    (hcreate : o.createOk = true)
    (hfail : o.agentSucceeds = false) :
    (o.hasCommitsResult = some false → o.checkoutOk = true →
      buildBranchName p config.branchPrefix ∉
        (autofixStep config originalBranch maxPerRun st p o).branches ∧
      (autofixStep config originalBranch maxPerRun st p o).current = originalBranch ∧
      (autofixStep config originalBranch maxPerRun st p o).trace = st.trace ++
        [.created (buildBranchName p config.branchPrefix),
         .agentRun (buildBranchName p config.branchPrefix),
         .checkedOut originalBranch,
         .deleted (buildBranchName p config.branchPrefix)]) ∧
    (o.hasCommitsResult ≠ some false →
      buildBranchName p config.branchPrefix ∈
        (autofixStep config originalBranch maxPerRun st p o).branches ∧
      (autofixStep config originalBranch maxPerRun st p o).trace = st.trace ++
        [.created (buildBranchName p config.branchPrefix),
         .agentRun (buildBranchName p config.branchPrefix)] ++
        (if o.checkoutOk then [GitEffect.checkedOut originalBranch] else []) ∧
      (autofixStep config originalBranch maxPerRun st p o).results = st.results ++
        [{ pattern_id := p.id, action := .skipped,
           branch := some (buildBranchName p config.branchPrefix),
           reason := some "Agent failed; branch retained (has partial commits)" }]) ∧
    (o.hasCommitsResult = some false → o.checkoutOk = false →
      buildBranchName p config.branchPrefix ∈
        (autofixStep config originalBranch maxPerRun st p o).branches ∧
      (autofixStep config originalBranch maxPerRun st p o).trace = st.trace ++
        [.created (buildBranchName p config.branchPrefix),
         .agentRun (buildBranchName p config.branchPrefix)] ∧
      (autofixStep config originalBranch maxPerRun st p o).results = st.results ++
        [{ pattern_id := p.id, action := .skipped,
           branch := some (buildBranchName p config.branchPrefix),
           reason := some "Agent failed; branch retained (checkout failed)" }]) := by
  have h2 : ¬(st.fixCount ≥ maxPerRun) := not_le.mpr hcap
  have herase : (st.branches ++ [buildBranchName p config.branchPrefix]).erase
      (buildBranchName p config.branchPrefix) = st.branches := by
    rw [List.erase_append_right _ hnew]
    simp
  refine ⟨?_, ?_, ?_⟩
  · intro hc hco
    refine ⟨?_, ?_, ?_⟩
    · simp [autofixStep, hmeets, h2, hnew, hcreate, hfail, hc, hco, herase]
    · simp [autofixStep, hmeets, h2, hnew, hcreate, hfail, hc, hco]
    · simp [autofixStep, hmeets, h2, hnew, hcreate, hfail, hc, hco]
  · intro hc
    have hcommits : o.hasCommitsResult.getD true = true := by
      cases hv : o.hasCommitsResult with
      | none => rfl
      | some b =>
        cases b with
        | false => exact absurd hv hc
        | true => rfl
    refine ⟨?_, ?_, ?_⟩
    · simp [autofixStep, hmeets, h2, hnew, hcreate, hfail, hcommits]
      split <;> simp
    · by_cases hco : o.checkoutOk = true
      · simp [autofixStep, hmeets, h2, hnew, hcreate, hfail, hcommits, hco]
      · simp [autofixStep, hmeets, h2, hnew, hcreate, hfail, hcommits, hco]
    · by_cases hco : o.checkoutOk = true
      · simp [autofixStep, hmeets, h2, hnew, hcreate, hfail, hcommits, hco]
      · simp [autofixStep, hmeets, h2, hnew, hcreate, hfail, hcommits, hco]
  · intro hc hco
    refine ⟨?_, ?_, ?_⟩
    · simp [autofixStep, hmeets, h2, hnew, hcreate, hfail, hc, hco]
    · simp [autofixStep, hmeets, h2, hnew, hcreate, hfail, hc, hco]
    · simp [autofixStep, hmeets, h2, hnew, hcreate, hfail, hc, hco]

def autofixFixablePattern : Pattern :=
  { id := "pat-7", type := "recurring_friction", scope := "pai",
    description := "broken hook", severity := .high, frequency := 4,
    trend := .increasing, auto_fixable := true }

def autofixFailNoCommitsOracle : AutofixOracle :=
  { createOk := true, agentSucceeds := false, hasCommitsResult := some false,
    checkoutOk := true }

/-- Witness for C5: agent failure with no commits on the new branch rolls
back cleanly — the branch is gone, the original branch is current again,
and the deletion happens after the checkout. -/
theorem autofix_agent_failure_preserves_commits_witness :
    buildBranchName autofixFixablePattern autofixExampleConfig.branchPrefix ∉
      (autofixStep autofixExampleConfig "main" 3 autofixInitState autofixFixablePattern
        autofixFailNoCommitsOracle).branches ∧
    (autofixStep autofixExampleConfig "main" 3 autofixInitState autofixFixablePattern
      autofixFailNoCommitsOracle).current = "main" ∧
    (autofixStep autofixExampleConfig "main" 3 autofixInitState autofixFixablePattern
      autofixFailNoCommitsOracle).trace = autofixInitState.trace ++
      [.created (buildBranchName autofixFixablePattern autofixExampleConfig.branchPrefix),
       .agentRun (buildBranchName autofixFixablePattern autofixExampleConfig.branchPrefix),
       .checkedOut "main",
       .deleted (buildBranchName autofixFixablePattern autofixExampleConfig.branchPrefix)] :=
  (autofix_agent_failure_preserves_commits autofixExampleConfig "main" 3 autofixInitState
    autofixFixablePattern autofixFailNoCommitsOracle (by decide) (by decide) (by decide)
    (by decide) (by decide)).1 (by decide) (by decide)

end SessionSignals
